import Mathlib

/-!
Verification development for the xbps transactional core: the repository
pool resolver (lib/repository_pool_find.c) and the binary package
unpack/install engine (lib/package_unpack.c).

The C code is shallowly embedded: the per-repository callbacks driven by
xbps_repository_pool_foreach become structural recursions over the ordered
repository list, and the archive-processing while loop of unpack_archive
becomes a structural recursion over the list of archive entries with an
explicit state record.  External collaborators that are not part of the
two source files (proplib dictionary lookups, version comparison, pattern
matching, hashing, script execution) are modelled from the spec, as noted
on each definition.
-/

set_option maxHeartbeats 1600000

namespace XbpsSpec

/-- errno values used by the sources (as in errno.h on Linux). -/
def ENOENT : Nat := 2

/-- errno value ENODEV, returned for an invalid binary package. -/
def ENODEV : Nat := 19

/-- errno value ENOMEM. -/
def ENOMEM : Nat := 12

/-- errno value EINVAL. -/
def EINVAL : Nat := 22

/-- A package descriptor: a proplib dictionary restricted to the string
properties read by the two source files.  The `repository` annotation is
absent until a resolver sets it (spec section 3). -/
structure PkgDesc where
  pkgname : String
  version : String
  pkgver : String
  repository : Option String := none
deriving DecidableEq, Repr

/-- One repository of the pool (struct repository_pool_index): its URI and
its internalized index dictionary.  `packages` is the concrete "packages"
catalog; `virtualpkgs` models the provides-based virtual package view used
by the fallback in repo_find_pkg_cb, and `virtualconf` the user-configured
virtual packages consulted by repo_find_virtualpkg_cb.  `err` models an
I/O or parse error inside the external dictionary lookups for this
repository: when set, every lookup returns NULL with errno = e (the
external finders report errors out of band via errno). -/
structure RepoIndex where
  rpi_uri : String
  packages : List PkgDesc := []
  virtualpkgs : List PkgDesc := []
  virtualconf : List PkgDesc := []
  err : Option Nat := none
deriving DecidableEq, Repr

/-- Match of one candidate descriptor against a query: by name the query
must equal the `pkgname` property, by pattern the external pattern matcher
`patmatch` is applied to the candidate's `pkgver` (modelled from the spec,
section 4.2: xbps_pkgpattern_match is not under src/). -/
def descMatches (patmatch : String → String → Bool) (bypattern : Bool)
    (pattern : String) (d : PkgDesc) : Bool :=
  if bypattern then patmatch pattern d.pkgver else d.pkgname == pattern

/-- Modelled from the spec: xbps_find_pkg_in_dict_by_name and
xbps_find_pkg_in_dict_by_pattern (not under src/) return the first
matching descriptor of the repository's "packages" catalog, or NULL.
A repository whose lookups fail (err set) yields NULL here; the errno
side channel is modelled separately by `lookupPkgE`. -/
def lookupPkgOpt (patmatch : String → String → Bool) (bypattern : Bool)
    (pattern : String) (r : RepoIndex) : Option PkgDesc :=
  match r.err with
  | some _ => none
  | none => r.packages.find? (descMatches patmatch bypattern pattern)

/-- Modelled from the spec: the same concrete-catalog lookup with the
errno side channel made explicit, as observed by repo_find_best_pkg_cb
which inspects errno when the lookup returns NULL. -/
def lookupPkgE (patmatch : String → String → Bool) (bypattern : Bool)
    (pattern : String) (r : RepoIndex) : Except Nat (Option PkgDesc) :=
  match r.err with
  | some e => .error e
  | none => .ok (r.packages.find? (descMatches patmatch bypattern pattern))

/-- Modelled from the spec: xbps_find_virtualpkg_in_dict_by_name and
_by_pattern (provides-based virtual packages, not under src/). -/
def lookupVirtualOpt (patmatch : String → String → Bool) (bypattern : Bool)
    (pattern : String) (r : RepoIndex) : Option PkgDesc :=
  match r.err with
  | some _ => none
  | none => r.virtualpkgs.find? (descMatches patmatch bypattern pattern)

/-- Modelled from the spec: xbps_find_virtualpkg_conf_in_dict_by_name and
_by_pattern (user-configured virtual packages, not under src/). -/
def lookupVirtualConfOpt (patmatch : String → String → Bool) (bypattern : Bool)
    (pattern : String) (r : RepoIndex) : Option PkgDesc :=
  match r.err with
  | some _ => none
  | none => r.virtualconf.find? (descMatches patmatch bypattern pattern)

/-- Modelled from the spec: xbps_find_pkg_in_dict_by_pkgver (not under
src/): exact match on the `pkgver` property in the "packages" catalog. -/
def lookupExactOpt (pkgver : String) (r : RepoIndex) : Option PkgDesc :=
  match r.err with
  | some _ => none
  | none => r.packages.find? (fun d => d.pkgver == pkgver)

/-- Annotation step shared by the callbacks: prop_dictionary_set_cstring
of the "repository" property with the winning repository URI. -/
def annotate (d : PkgDesc) (uri : String) : PkgDesc :=
  { d with repository := some uri }

/-- The per-repository lookup performed by repo_find_pkg_cb in the
non-exact modes (lines 93-111): concrete "packages" catalog first, the
provides-based virtual catalog only if that returned NULL. -/
def repoHitCV (patmatch : String → String → Bool) (bypattern : Bool)
    (pattern : String) (r : RepoIndex) : Option PkgDesc :=
  match lookupPkgOpt patmatch bypattern pattern r with
  | some d => some d
  | none => lookupVirtualOpt patmatch bypattern pattern r

/-- Iteration of repo_find_pkg_cb (non-exact) over the ordered pool, as
driven by xbps_repository_pool_foreach: the callback sets done on the
first hit and always returns 0, so the scan stops at the first repository
whose concrete-then-virtual lookup succeeds (lines 78-124). -/
def scanFindPkg (patmatch : String → String → Bool) (bypattern : Bool)
    (pattern : String) : List RepoIndex → Option PkgDesc
  | [] => none
  | r :: rs =>
    match repoHitCV patmatch bypattern pattern r with
    | some d => some (annotate d r.rpi_uri)
    | none => scanFindPkg patmatch bypattern pattern rs

/-- Iteration of repo_find_pkg_cb in exact mode (lines 85-92): when the
repo_bestmatch filter is set, repositories with a different URI are
skipped; the hit is the first exact pkgver match, annotated. -/
def scanFindExact (repo_bestmatch : Option String) (pkgver : String) :
    List RepoIndex → Option PkgDesc
  | [] => none
  | r :: rs =>
    if (match repo_bestmatch with
        | some u => u != r.rpi_uri
        | none => false) then
      scanFindExact repo_bestmatch pkgver rs
    else
      match lookupExactOpt pkgver r with
      | some d => some (annotate d r.rpi_uri)
      | none => scanFindExact repo_bestmatch pkgver rs

/-- Iteration of repo_find_virtualpkg_cb (lines 48-76): only the
user-configured virtual catalog is consulted; first hit wins. -/
def scanFindVirtual (patmatch : String → String → Bool) (bypattern : Bool)
    (pattern : String) : List RepoIndex → Option PkgDesc
  | [] => none
  | r :: rs =>
    match lookupVirtualConfOpt patmatch bypattern pattern r with
    | some d => some (annotate d r.rpi_uri)
    | none => scanFindVirtual patmatch bypattern pattern rs

/-- Accumulator of repo_find_best_pkg_cb: the best pkgver seen so far and
the URI of the repository it came from (struct repo_pool_fpkg fields
bestpkgver and repo_bestmatch). -/
structure BestAcc where
  bestpkgver : Option String := none
  repo_bestmatch : Option String := none
deriving DecidableEq, Repr

/-- Iteration of repo_find_best_pkg_cb (lines 126-173).  `gt a b`
models a nonzero return of the external version comparator xbps_cmpver
at the call site (not under src/); modelled from the spec, section 4.3:
the scan replaces the best seen so far exactly when the newly found
pkgver is strictly greater under VersionComparator, ties keeping the
first seen.  A NULL lookup with errno not in {0, ENOENT} aborts the
foreach with that errno (lines 145-151); the callback never sets done,
so every repository is visited otherwise. -/
def scanBest (gt : String → String → Bool) (patmatch : String → String → Bool)
    (bypattern : Bool) (pattern : String) :
    List RepoIndex → BestAcc → BestAcc × Nat
  | [], acc => (acc, 0)
  | r :: rs, acc =>
    match lookupPkgE patmatch bypattern pattern r with
    | .error e =>
      if e ≠ 0 ∧ e ≠ ENOENT then (acc, e)
      else scanBest gt patmatch bypattern pattern rs acc
    | .ok none => scanBest gt patmatch bypattern pattern rs acc
    | .ok (some d) =>
      match acc.bestpkgver with
      | none =>
        scanBest gt patmatch bypattern pattern rs
          ⟨some d.pkgver, some r.rpi_uri⟩
      | some b =>
        if gt d.pkgver b then
          scanBest gt patmatch bypattern pattern rs
            ⟨some d.pkgver, some r.rpi_uri⟩
        else scanBest gt patmatch bypattern pattern rs acc

/-- One best-match comparison of repo_find_best_pkg_cb as a fold step
over the (pkgver, uri) hits: replace the accumulator exactly when there
is no best yet or the new pkgver is strictly greater. -/
def bestStep (gt : String → String → Bool) (acc : BestAcc)
    (h : String × String) : BestAcc :=
  match acc.bestpkgver with
  | none => ⟨some h.1, some h.2⟩
  | some b => if gt h.1 b then ⟨some h.1, some h.2⟩ else acc

/-- The (pkgver, uri) pairs offered to the best scan by the repositories
of the pool, in pool order. -/
def bestHits (patmatch : String → String → Bool) (bypattern : Bool)
    (pattern : String) (pool : List RepoIndex) : List (String × String) :=
  pool.filterMap (fun r =>
    (lookupPkgOpt patmatch bypattern pattern r).map
      (fun d => (d.pkgver, r.rpi_uri)))

/-- repo_find_pkg (lines 175-234): dispatch on the exact / best /
virtual / plain modes, returning the found dictionary together with the
errno value the function stores (0 when errno is left untouched).  In
best mode the winning pkgver is re-resolved through the full pool via
xbps_repository_pool_find_pkg_exact, which builds a fresh state whose
repo_bestmatch filter is NULL (lines 211-213 and 268-282). -/
def repo_find_pkg (gt patmatch : String → String → Bool)
    (pool : List RepoIndex) (pkg : String)
    (bypattern best exact virtual : Bool) : Option PkgDesc × Nat :=
  if exact then
    (scanFindExact none pkg pool, 0)
  else if best then
    let res := scanBest gt patmatch bypattern pkg pool ⟨none, none⟩
    let pkgd := match res.1.bestpkgver with
      | some v => scanFindExact none v pool
      | none => none
    (pkgd, res.2)
  else if virtual then
    (scanFindVirtual patmatch bypattern pkg pool, 0)
  else
    (scanFindPkg patmatch bypattern pkg pool, 0)

/-- xbps_repository_pool_find_pkg (lines 252-266). -/
def xbps_repository_pool_find_pkg (gt patmatch : String → String → Bool)
    (pool : List RepoIndex) (pkg : String) (bypattern best : Bool) :
    Option PkgDesc × Nat :=
  repo_find_pkg gt patmatch pool pkg bypattern best false false

/-- xbps_repository_pool_find_pkg_exact (lines 268-282). -/
def xbps_repository_pool_find_pkg_exact (gt patmatch : String → String → Bool)
    (pool : List RepoIndex) (pkgver : String) : Option PkgDesc × Nat :=
  repo_find_pkg gt patmatch pool pkgver false false true false

/-- xbps_repository_pool_find_virtualpkg (lines 236-250). -/
def xbps_repository_pool_find_virtualpkg (gt patmatch : String → String → Bool)
    (pool : List RepoIndex) (pkg : String) (bypattern best : Bool) :
    Option PkgDesc × Nat :=
  repo_find_pkg gt patmatch pool pkg bypattern best false true

/-! ### Package unpack engine (lib/package_unpack.c) -/

/-- Persistent per-package install states (spec section 3; the engine
touches only halfUnpacked and unpacked). -/
inductive PkgState where
  | notInstalled
  | halfUnpacked
  | unpacked
  | installed
  | broken
  | configFiles
deriving DecidableEq, Repr

/-- The file manifest internalized from the files.plist archive entry:
three collections, regular files and configuration files with their
recorded sha256 digests, and symlinks. -/
structure FilesMf where
  files : List (String × String) := []
  conf_files : List (String × String) := []
  links : List String := []
deriving DecidableEq, Repr

/-- The properties document (props.plist) restricted to what
unpack_archive reads: the configuration-file path list consulted by
xbps_entry_is_a_conf_file. -/
structure Props where
  conf_files : List String := []
deriving DecidableEq, Repr

/-- Kind of an archive entry as classified by the stat mode bits:
S_ISDIR, S_ISREG, or anything else (symlinks etc.). -/
inductive EKind where
  | dir
  | reg
  | link
deriving DecidableEq, Repr

/-- One archive entry.  `content` is the byte stream written on a
successful extraction; `extractFails` with `failCode` models an archive
I/O failure of archive_read_extract (or of the metafile extraction /
internalization) for this entry; the two payload fields carry the
internalization result for the files.plist and props.plist entries
(none models a failed internalization). -/
structure Entry where
  pname : String
  kind : EKind
  content : String := ""
  extractFails : Bool := false
  failCode : Nat := 5
  mfPayload : Option FilesMf := none
  propsPayload : Option Props := none
deriving DecidableEq, Repr

/-- Observable actions of one unpack run, in program order. -/
inductive Act where
  | stateWrite (s : PkgState)
  | ensureRootdir
  | chdirRoot
  | removeMeta (f : String)
  | extractMeta (f : String)
  | execInstallPre
  | internalizeFiles
  | skipEntry (p : String)
  | renameOld (p : String)
  | notice (p : String)
  | extractData (p : String)
  | extractFail (p : String) (e : Nat)
  | removeObsolete (p : String)
  | writeFilesPlist
deriving DecidableEq, Repr

/-- Set a key in a string-keyed association list, replacing any previous
binding. -/
def assocSet {α : Type} (l : List (String × α)) (k : String) (v : α) :
    List (String × α) :=
  (k, v) :: l.filter (fun p => p.1 != k)

/-- Delete a key from a string-keyed association list. -/
def assocDel {α : Type} (l : List (String × α)) (k : String) :
    List (String × α) :=
  l.filter (fun p => p.1 != k)

instance {ε α : Type} [DecidableEq ε] [DecidableEq α] :
    DecidableEq (Except ε α) := fun x y =>
  match x, y with
  | .ok a, .ok b =>
    if h : a = b then isTrue (congrArg Except.ok h)
    else isFalse (fun hc => h (Except.ok.inj hc))
  | .error a, .error b =>
    if h : a = b then isTrue (congrArg Except.error h)
    else isFalse (fun hc => h (Except.error.inj hc))
  | .ok _, .error _ => isFalse (fun hc => Except.noConfusion hc)
  | .error _, .ok _ => isFalse (fun hc => Except.noConfusion hc)

/-- State threaded through one unpack transaction: the target root
filesystem (path to content), this package's metadata directory (the
INSTALL/REMOVE scripts and props.plist as raw content, plus the stored
files.plist manifest kept in internalized form), the persistent
install-state store, the two internalized documents of unpack_archive,
its counters, the sticky archive errno, and the emitted action trace. -/
structure USt where
  fs : List (String × String) := []
  meta : List (String × String) := []
  storedFiles : Option FilesMf := none
  pkgStates : List (String × PkgState) := []
  filesd : Option FilesMf := none
  propsd : Option Props := none
  nmetadata : Nat := 0
  entry_idx : Nat := 0
  arErrno : Nat := 0
  trace : List Act := []
deriving DecidableEq, Repr

/-- Environment of external collaborators for one unpack call:
the exit status of the INSTALL script's pre action (xbps_file_exec),
the digest function (modelled from the spec: hashing is an external
collaborator), and the configuration-file merge collaborator
xbps_entry_install_conf_file (error e / keep-current false /
install true; modelled from the spec, section 4.5). -/
structure UEnv where
  installExit : Nat := 0
  hashFn : String → String := id
  confPolicy : String → Except Nat Bool := fun _ => .ok true

/-- The package dictionary properties read by the two unpack
functions. -/
structure PkgDict where
  pkgname : String := "pkg"
  version : String := "1.0"
  pkgver : String := "pkg-1.0"
  filename : String := "pkg-1.0.xbps"
  preserve : Bool := false
  transaction : String := "install"
  repository : Option String := some "repo"
deriving DecidableEq, Repr

/-- Result of the digest comparison xbps_file_hash_check_dictionary
(modelled from the spec: the function is not under src/; it returns -1
on a failed comparison, 0 on a digest match, 1 on a mismatch). -/
inductive HashRes where
  | err (e : Nat)
  | matched
  | mismatched
deriving DecidableEq, Repr

/-- Modelled from the spec: xbps_file_hash_check_dictionary looks up the
recorded digest for the path in the named collection of the new file
manifest and compares it against the digest of the on-disk file; a
missing recorded digest or unreadable file is a failed comparison
(fatal for the unpack, spec section 4.5). -/
def hashCheckDict (hashFn : String → String) (mf : FilesMf) (conf : Bool)
    (p : String) (fs : List (String × String)) : HashRes :=
  match (if conf then mf.conf_files else mf.files).lookup p with
  | none => .err ENOENT
  | some dig =>
    match fs.lookup p with
    | none => .err ENOENT
    | some c => if hashFn c = dig then .matched else .mismatched

/-- The shared extraction tail of the data-file path (lines 481-495):
archive_read_extract either succeeds, writing the entry content at its
path, or fails, in which case the error is recorded in the archive's
sticky errno and the loop nevertheless continues with the next entry
(there is no goto out on this path). -/
def extractTail (st : USt) (e : Entry) : USt :=
  if e.extractFails then
    { st with arErrno := e.failCode,
              trace := st.trace ++ [.extractFail e.pname e.failCode] }
  else
    { st with fs := assocSet st.fs e.pname e.content,
              trace := st.trace ++ [.extractData e.pname] }

/-- Data-file handling once both manifests are present (lines 405-495):
for regular files that already exist on disk the digest is checked first
(abort on a failed check, skip on a match); then the install-mode
configuration-file preserve (rename to .old plus notice), or the
update-mode configuration-file collaborator (abort / keep-current skip /
install), and finally the extraction tail. -/
def unpackDataStep (env : UEnv) (update : Bool) (st : USt) (e : Entry)
    (pd : Props) (mf : FilesMf) : Except (Nat × USt) USt :=
  if e.kind = EKind.reg then
    match st.fs.lookup e.pname with
    | some old =>
      match hashCheckDict env.hashFn mf (pd.conf_files.contains e.pname)
          e.pname st.fs with
      | .err ec => .error (ec, st)
      | .matched => .ok { st with trace := st.trace ++ [.skipEntry e.pname] }
      | .mismatched =>
        if !update && pd.conf_files.contains e.pname then
          .ok (extractTail { st with
            fs := assocSet (assocDel st.fs e.pname) (e.pname ++ ".old") old,
            trace := st.trace ++ [.renameOld e.pname, .notice e.pname] } e)
        else if update && pd.conf_files.contains e.pname then
          match env.confPolicy e.pname with
          | .error ec => .error (ec, st)
          | .ok false => .ok { st with trace := st.trace ++ [.skipEntry e.pname] }
          | .ok true => .ok (extractTail st e)
        else .ok (extractTail st e)
    | none => .ok (extractTail st e)
  else .ok (extractTail st e)

/-- One iteration of the while loop of unpack_archive (lines 256-495):
directories are skipped; the INSTALL entry is extracted to the metadata
directory and its pre action executed (a non-zero exit aborts); REMOVE
and props.plist are extracted to the metadata directory, files.plist and
props.plist are internalized; any other entry seen before both documents
are present is skipped, with at most three such entries tolerated before
the archive is rejected with ENODEV; otherwise the data-file path runs. -/
def unpackStep (env : UEnv) (update : Bool) (st : USt) (e : Entry) :
    Except (Nat × USt) USt :=
  if e.kind = EKind.dir then
    .ok { st with trace := st.trace ++ [.skipEntry e.pname] }
  else if e.pname = "./INSTALL" then
    if e.extractFails then .error (e.failCode, st)
    else if env.installExit ≠ 0 then
      .error (env.installExit,
        { st with meta := assocSet st.meta "INSTALL" e.content,
                  trace := st.trace ++ [.extractMeta "INSTALL",
                                        .execInstallPre] })
    else
      .ok { st with meta := assocSet st.meta "INSTALL" e.content,
                    nmetadata := st.nmetadata + 1,
                    trace := st.trace ++ [.extractMeta "INSTALL",
                                          .execInstallPre] }
  else if e.pname = "./REMOVE" then
    if e.extractFails then .error (e.failCode, st)
    else .ok { st with meta := assocSet st.meta "REMOVE" e.content,
                       nmetadata := st.nmetadata + 1,
                       trace := st.trace ++ [.extractMeta "REMOVE"] }
  else if e.pname = "./files.plist" then
    match e.mfPayload with
    | none => .error (e.failCode, st)
    | some mfp =>
      .ok { st with filesd := some mfp, nmetadata := st.nmetadata + 1,
                    trace := st.trace ++ [.internalizeFiles] }
  else if e.pname = "./props.plist" then
    if e.extractFails then .error (e.failCode, st)
    else
      match e.propsPayload with
      | none => .error (e.failCode,
          { st with meta := assocSet st.meta "props.plist" e.content,
                    trace := st.trace ++ [.extractMeta "props.plist"] })
      | some pdp =>
        .ok { st with meta := assocSet st.meta "props.plist" e.content,
                      propsd := some pdp, nmetadata := st.nmetadata + 1,
                      trace := st.trace ++ [.extractMeta "props.plist"] }
  else
    match st.propsd, st.filesd with
    | some pd, some mf => unpackDataStep env update st e pd mf
    | none, _ =>
      if st.entry_idx ≥ 3 then .error (ENODEV, st)
      else .ok { st with entry_idx := st.entry_idx + 1,
                         trace := st.trace ++ [.skipEntry e.pname] }
    | some _, none =>
      if st.entry_idx ≥ 3 then .error (ENODEV, st)
      else .ok { st with entry_idx := st.entry_idx + 1,
                         trace := st.trace ++ [.skipEntry e.pname] }

/-- The archive-processing while loop: one unpackStep per entry, an
error aborting the remainder of the stream. -/
def unpackLoop (env : UEnv) (update : Bool) (st : USt) :
    List Entry → Except (Nat × USt) USt
  | [] => .ok st
  | e :: es =>
    match unpackStep env update st e with
    | .ok st₁ => unpackLoop env update st₁ es
    | .error r => .error r

/-- Steps of unpack_archive preceding the loop (lines 220-252): root
directory resolution and chdir, then, when updating, removal of the
previously installed INSTALL and REMOVE scripts. -/
def unpackPre (pkg : PkgDict) (st0 : USt) : USt :=
  let st := { st0 with trace := st0.trace ++ [.ensureRootdir, .chdirRoot] }
  if pkg.transaction = "update" then
    { st with meta := assocDel (assocDel st.meta "INSTALL") "REMOVE",
              trace := st.trace ++ [.removeMeta "INSTALL",
                                    .removeMeta "REMOVE"] }
  else st

/-- Paths of the previous manifest absent from the corresponding
collection of the new manifest (modelled from the spec, section 4.6:
xbps_remove_obsoletes is not under src/). -/
def obsoletePaths (oldmf newmf : FilesMf) : List String :=
  (oldmf.files.map Prod.fst).filter
      (fun p => !(newmf.files.map Prod.fst).contains p) ++
  (oldmf.conf_files.map Prod.fst).filter
      (fun p => !(newmf.conf_files.map Prod.fst).contains p) ++
  oldmf.links.filter (fun p => !newmf.links.contains p)

/-- Deletion of one obsolete path from the target filesystem. -/
def obsDelStep (s : USt) (p : String) : USt :=
  { s with fs := assocDel s.fs p, trace := s.trace ++ [.removeObsolete p] }

/-- Modelled from the spec: xbps_remove_obsoletes deletes every obsolete
path from the target filesystem. -/
def removeObsoletes (oldmf newmf : FilesMf) (st : USt) : USt :=
  (obsoletePaths oldmf newmf).foldl obsDelStep st

/-- Final metadata steps of unpack_archive (label out1, lines 534-561):
create the package metadata directory and externalize the new file
manifest into it; a missing manifest makes the externalization fail. -/
def finishMeta (st : USt) : Nat × USt :=
  match st.filesd with
  | some mf =>
    (0, { st with storedFiles := some mf,
                  trace := st.trace ++ [.writeFilesPlist] })
  | none => (EINVAL, st)

/-- Steps of unpack_archive after a loop that terminated without an
entry error (lines 496-561): the sticky archive errno is checked first
and errors the call out; obsolete files are reconciled only when
updating a package that does not set preserve and a previous manifest
is stored (its absence is tolerated); finally the new file manifest is
externalized into the metadata directory. -/
def unpackPost (pkg : PkgDict) (st : USt) : Nat × USt :=
  if st.arErrno ≠ 0 then (st.arErrno, st)
  else if pkg.preserve || !(pkg.transaction = "update") then finishMeta st
  else
    match st.storedFiles with
    | some oldmf => finishMeta (removeObsoletes oldmf (st.filesd.getD {}) st)
    | none => finishMeta st

/-- unpack_archive (lines 184-575): pre steps, the entry loop, and the
post steps, returning the rv of the C function with the final state. -/
def unpack_archive (env : UEnv) (pkg : PkgDict) (st0 : USt)
    (es : List Entry) : Nat × USt :=
  match unpackLoop env (pkg.transaction = "update") (unpackPre pkg st0) es with
  | .error (rv, st₁) => (rv, st₁)
  | .ok st₁ => unpackPost pkg st₁

/-- Environment of xbps_unpack_binary_pkg: the binary package path
computed from the repository URI (none models a failed
xbps_path_from_repository_uri with the given errno), and failure of
archive_read_new or of opening the archive file. -/
structure WEnv where
  bpkgPath : Option String := some "binpkg.xbps"
  pathErrno : Nat := EINVAL
  archiveNewFails : Bool := false
  openFails : Bool := false
  openErrno : Nat := 5
deriving Repr

/-- xbps_set_pkg_state_installed: persist an install state for the
package and record the write in the trace. -/
def writeState (st : USt) (name : String) (s : PkgState) : USt :=
  { st with pkgStates := assocSet st.pkgStates name s,
            trace := st.trace ++ [.stateWrite s] }

/-- xbps_unpack_binary_pkg (lines 577-663): determine the binary package
path, create and open the archive reader, persist the half-unpacked
state, run unpack_archive, and on success persist the unpacked state.
Failures at or before the archive open return before any state write. -/
def xbps_unpack_binary_pkg (wenv : WEnv) (env : UEnv) (pkg : PkgDict)
    (st0 : USt) (es : List Entry) : Nat × USt :=
  match wenv.bpkgPath with
  | none => (wenv.pathErrno, st0)
  | some _ =>
    if wenv.archiveNewFails then (ENOMEM, st0)
    else if wenv.openFails then (wenv.openErrno, st0)
    else
      let res := unpack_archive env pkg
        (writeState st0 pkg.pkgname PkgState.halfUnpacked) es
      if res.1 ≠ 0 then res
      else (0, writeState res.2 pkg.pkgname PkgState.unpacked)

/-- Strict lexicographic order on character lists, used to build a
concrete VersionComparator instance for witnesses. -/
def charsLt : List Char → List Char → Bool
  | [], [] => false
  | [], _ :: _ => true
  | _ :: _, [] => false
  | a :: as, b :: bs =>
    if a.toNat < b.toNat then true
    else if b.toNat < a.toNat then false
    else charsLt as bs

/-- Concrete strict total order on strings used by witnesses: any strict
total order is an admissible VersionComparator instance here. -/
def sgt (a b : String) : Bool := charsLt b.data a.data

/-- Pattern matcher instance for witnesses and counterexamples built on
by-name queries only: it never matches, which is irrelevant since those
concrete scenarios query by name. -/
def pm0 : String → String → Bool := fun _ _ => false

/-! Concrete repositories for witnesses and counterexamples. -/

/-- Concrete descriptor foo-1.0. -/
def dFoo1 : PkgDesc := { pkgname := "foo", version := "1.0", pkgver := "foo-1.0" }

/-- Concrete descriptor foo-3.0. -/
def dFoo3 : PkgDesc := { pkgname := "foo", version := "3.0", pkgver := "foo-3.0" }

/-- Concrete descriptor foo-2.0. -/
def dFoo2 : PkgDesc := { pkgname := "foo", version := "2.0", pkgver := "foo-2.0" }

/-- Repository a, holding foo-1.0. -/
def repoA : RepoIndex := { rpi_uri := "http://a", packages := [dFoo1] }

/-- Repository b, holding foo-3.0. -/
def repoB : RepoIndex := { rpi_uri := "http://b", packages := [dFoo3] }

/-- Repository c, holding foo-2.0. -/
def repoC : RepoIndex := { rpi_uri := "http://c", packages := [dFoo2] }

/-- A repository whose index lookups fail with errno 5 (EIO), although it
does hold a matching foo-3.0 package. -/
def repoErr : RepoIndex :=
  { rpi_uri := "http://err", packages := [dFoo3], err := some 5 }

/-- An error-free repository with no packages at all. -/
def repoMiss : RepoIndex := { rpi_uri := "http://miss" }

/-! Concrete archive entries for unpack witnesses and counterexamples. -/

/-- Concrete properties document with no configuration files. -/
def pdPlain : Props := {}

/-- Concrete file manifest listing ./a and ./b with their digests. -/
def mfAB : FilesMf := { files := [("./a", "A"), ("./b", "B")] }

/-- props.plist archive entry internalizing pdPlain. -/
def ePropsPlain : Entry :=
  { pname := "./props.plist", kind := .reg, propsPayload := some pdPlain }

/-- files.plist archive entry internalizing mfAB. -/
def eFilesAB : Entry :=
  { pname := "./files.plist", kind := .reg, mfPayload := some mfAB }

/-- Data entry ./a whose extraction fails with errno 5. -/
def eAfail : Entry :=
  { pname := "./a", kind := .reg, content := "A", extractFails := true }

/-- Data entry ./b extracting successfully. -/
def eBok : Entry := { pname := "./b", kind := .reg, content := "B" }

/-- Properties document declaring ./etc/c as a configuration file. -/
def pdConf : Props := { conf_files := ["./etc/c"] }

/-- File manifest whose conf_files digest for ./etc/c equals the content
already on disk in the counterexample state. -/
def mfConfOld : FilesMf := { conf_files := [("./etc/c", "OLD")] }

/-- props.plist entry internalizing pdConf. -/
def ePropsConf : Entry :=
  { pname := "./props.plist", kind := .reg, propsPayload := some pdConf }

/-- files.plist entry internalizing mfConfOld. -/
def eFilesConfOld : Entry :=
  { pname := "./files.plist", kind := .reg, mfPayload := some mfConfOld }

/-- Configuration-file data entry ./etc/c carrying new content. -/
def eConfNew : Entry := { pname := "./etc/c", kind := .reg, content := "NEW" }

/-- Initial state with ./etc/c already on disk with content OLD. -/
def stConfOld : USt := { fs := [("./etc/c", "OLD")] }

/-- INSTALL script archive entry. -/
def eInstall : Entry := { pname := "./INSTALL", kind := .reg, content := "#!/bin/sh" }

/-- Environment whose INSTALL pre action exits with status 7. -/
def envExit7 : UEnv := { installExit := 7 }

/-- Update-mode package dictionary. -/
def pkgUpd : PkgDict := { transaction := "update" }

/-- A regular data entry appearing before the manifests (a quirk). -/
def eQuirk : Entry := { pname := "./q", kind := .reg }

/-- State with both manifests internalized and ./a on disk with content
A, matching the digest recorded in mfAB. -/
def stSkipA : USt :=
  { fs := [("./a", "A")], propsd := some pdPlain, filesd := some mfAB }

/-- A regular entry for ./a with fresh content, to be skipped because
the on-disk digest matches the manifest. -/
def eSkipA : Entry := { pname := "./a", kind := .reg, content := "A2" }

/-- State reached after internalizing props.plist and files.plist from
the empty state. -/
def stC2mid : USt :=
  { meta := [("props.plist", "")], filesd := some mfAB, propsd := some pdPlain,
    nmetadata := 2,
    trace := [Act.extractMeta "props.plist", Act.internalizeFiles] }

/-- State reached after a full install-mode loop over props.plist,
files.plist and the failing ./a entry: the sticky archive errno is 5
and ./a was never extracted. -/
def stC2end : USt :=
  { meta := [("props.plist", "")], filesd := some mfAB, propsd := some pdPlain,
    nmetadata := 2, arErrno := 5,
    trace := [Act.ensureRootdir, Act.chdirRoot, Act.extractMeta "props.plist",
              Act.internalizeFiles, Act.extractFail "./a" 5] }

/-- State at loop entry after the half-unpacked write and the pre steps
of an install-mode unpack of the default package from the empty state. -/
def stC4pre : USt :=
  { pkgStates := [("pkg", PkgState.halfUnpacked)],
    trace := [Act.stateWrite PkgState.halfUnpacked, Act.ensureRootdir,
              Act.chdirRoot] }

theorem char_toNat_inj {a b : Char} (h : a.toNat = b.toNat) : a = b := by
  apply Char.ext
  apply UInt32.ext
  exact h

theorem charsLt_asymm : ∀ l m : List Char,
    charsLt l m = true → charsLt m l = true → False := by
  intro l
  induction l with
  | nil => intro m h₁ h₂; cases m <;> simp [charsLt] at h₁ h₂
  | cons a as ih =>
    intro m h₁ h₂
    cases m with
    | nil => simp [charsLt] at h₁
    | cons b bs =>
      simp only [charsLt] at h₁ h₂
      by_cases hab : a.toNat < b.toNat
      · have hba : ¬ b.toNat < a.toNat := by omega
        simp [hab, hba] at h₂
      · by_cases hba : b.toNat < a.toNat
        · simp [hab, hba] at h₁
        · simp [hab, hba] at h₁ h₂
          exact ih bs h₁ h₂

theorem charsLt_trans : ∀ l m n : List Char,
    charsLt l m = true → charsLt m n = true → charsLt l n = true := by
  intro l
  induction l with
  | nil =>
    intro m n h₁ h₂
    cases m with
    | nil => simp [charsLt] at h₁
    | cons b bs =>
      cases n with
      | nil => simp [charsLt] at h₂
      | cons c cs => simp [charsLt]
  | cons a as ih =>
    intro m n h₁ h₂
    cases m with
    | nil => simp [charsLt] at h₁
    | cons b bs =>
      cases n with
      | nil => simp [charsLt] at h₂
      | cons c cs =>
        simp only [charsLt] at h₁ h₂ ⊢
        by_cases hab : a.toNat < b.toNat
        · by_cases hbc : b.toNat < c.toNat
          · have : a.toNat < c.toNat := by omega
            simp [this]
          · by_cases hcb : c.toNat < b.toNat
            · simp [hbc, hcb] at h₂
            · have hbc' : b.toNat = c.toNat := by omega
              have : a.toNat < c.toNat := by omega
              simp [this]
        · by_cases hba : b.toNat < a.toNat
          · simp [hab, hba] at h₁
          · have hab' : a.toNat = b.toNat := by omega
            simp [hab, hba] at h₁
            by_cases hbc : b.toNat < c.toNat
            · have : a.toNat < c.toNat := by omega
              simp [this]
            · by_cases hcb : c.toNat < b.toNat
              · simp [hbc, hcb] at h₂
              · have hac : ¬ a.toNat < c.toNat := by omega
                have hca : ¬ c.toNat < a.toNat := by omega
                simp [hbc, hcb] at h₂
                simp [hac, hca]
                exact ih bs cs h₁ h₂

theorem charsLt_tricho : ∀ l m : List Char,
    l = m ∨ charsLt l m = true ∨ charsLt m l = true := by
  intro l
  induction l with
  | nil => intro m; cases m <;> simp [charsLt]
  | cons a as ih =>
    intro m
    cases m with
    | nil => simp [charsLt]
    | cons b bs =>
      by_cases hab : a.toNat < b.toNat
      · exact Or.inr (Or.inl (by simp [charsLt, hab]))
      · by_cases hba : b.toNat < a.toNat
        · exact Or.inr (Or.inr (by simp [charsLt, hba]))
        · have hab' : a = b := char_toNat_inj (by omega)
          rcases ih bs with h | h | h
          · exact Or.inl (by rw [hab', h])
          · exact Or.inr (Or.inl (by simp [charsLt, hab, hba, h]))
          · exact Or.inr (Or.inr (by subst hab'; simp [charsLt, hab, h]))

theorem sgt_asymm : ∀ a b : String, sgt a b = true → sgt b a = true → False :=
  fun a b h₁ h₂ => charsLt_asymm b.data a.data h₁ h₂

theorem sgt_trans : ∀ a b c : String,
    sgt a b = true → sgt b c = true → sgt a c = true :=
  fun _ b _ h₁ h₂ => charsLt_trans _ b.data _ h₂ h₁

theorem sgt_tricho : ∀ a b : String, a = b ∨ sgt a b = true ∨ sgt b a = true := by
  intro a b
  rcases charsLt_tricho b.data a.data with h | h | h
  · left
    cases a with
    | mk la =>
      cases b with
      | mk lb => simp only [String.data] at h; rw [h]
  · exact Or.inr (Or.inl h)
  · exact Or.inr (Or.inr h)

/-! ### Association list helper lemmas -/

theorem assocSet_lookup_same {α : Type} (l : List (String × α)) (k : String)
    (v : α) : (assocSet l k v).lookup k = some v := by
  simp [assocSet, List.lookup]

theorem lookup_filter_ne {α : Type} (l : List (String × α)) (k k' : String)
    (h : k' ≠ k) : (l.filter (fun p => p.1 != k)).lookup k' = l.lookup k' := by
  induction l with
  | nil => rfl
  | cons p t ih =>
    by_cases hp : p.1 = k
    · have hkk : (k' == k) = false := by simp [h]
      simp [List.filter_cons, hp, List.lookup, hkk, ih]
    · simp only [List.filter_cons]
      have : (p.1 != k) = true := by simp [hp]
      simp only [this, if_true]
      by_cases hk : k' = p.1
      · simp [List.lookup, hk]
      · have hk' : (k' == p.1) = false := by simp [hk]
        simp [List.lookup, hk', ih]

theorem assocSet_lookup_ne {α : Type} (l : List (String × α)) (k k' : String)
    (v : α) (h : k' ≠ k) : (assocSet l k v).lookup k' = l.lookup k' := by
  have hk' : (k' == k) = false := by simp [h]
  simp [assocSet, List.lookup, hk']
  exact lookup_filter_ne l k k' h

theorem string_ne_append_old (s : String) : s ≠ s ++ ".old" := by
  intro h
  have hlen : s.length = (s ++ ".old").length := by rw [← h]
  have h4 : ".old".length = 4 := rfl
  rw [String.length_append, h4] at hlen
  omega

/-! ### Structural lemmas about the unpack loop -/

theorem unpackLoop_append (env : UEnv) (u : Bool) (st : USt)
    (l₁ l₂ : List Entry) :
    unpackLoop env u st (l₁ ++ l₂) =
      match unpackLoop env u st l₁ with
      | .ok st₁ => unpackLoop env u st₁ l₂
      | .error r => .error r := by
  induction l₁ generalizing st with
  | nil => simp [unpackLoop]
  | cons e t ih =>
    simp only [List.cons_append, unpackLoop]
    cases unpackStep env u st e with
    | ok st₁ => exact ih st₁
    | error r => rfl

theorem extractTail_pkgStates (st : USt) (e : Entry) :
    (extractTail st e).pkgStates = st.pkgStates := by
  unfold extractTail
  split <;> rfl

theorem extractTail_trace (st : USt) (e : Entry) :
    ∃ t, (extractTail st e).trace = st.trace ++ t := by
  unfold extractTail
  split <;> exact ⟨_, rfl⟩

theorem unpackDataStep_pkgStates (env : UEnv) (u : Bool) (st : USt) (e : Entry)
    (pd : Props) (mf : FilesMf) :
    (∀ st₁, unpackDataStep env u st e pd mf = .ok st₁ →
      st₁.pkgStates = st.pkgStates) ∧
    (∀ rv st₁, unpackDataStep env u st e pd mf = .error (rv, st₁) →
      st₁.pkgStates = st.pkgStates) := by
  unfold unpackDataStep
  constructor
  · intro st₁ h
    repeat' split at h
    all_goals
      first
      | exact Except.noConfusion h
      | (injection h with h; subst h;
         first
         | rfl
         | rw [extractTail_pkgStates])
  · intro rv st₁ h
    repeat' split at h
    all_goals
      first
      | exact Except.noConfusion h
      | (injection h with h; cases h; rfl)

theorem unpackStep_pkgStates (env : UEnv) (u : Bool) (st : USt) (e : Entry) :
    (∀ st₁, unpackStep env u st e = .ok st₁ → st₁.pkgStates = st.pkgStates) ∧
    (∀ rv st₁, unpackStep env u st e = .error (rv, st₁) →
      st₁.pkgStates = st.pkgStates) := by
  unfold unpackStep
  constructor
  · intro st₁ h
    repeat' split at h
    all_goals
      first
      | exact Except.noConfusion h
      | (injection h with h; subst h; rfl)
      | exact (unpackDataStep_pkgStates env u st e _ _).1 st₁ h
  · intro rv st₁ h
    repeat' split at h
    all_goals
      first
      | exact Except.noConfusion h
      | (injection h with h; cases h; rfl)
      | exact (unpackDataStep_pkgStates env u st e _ _).2 rv st₁ h

theorem unpackLoop_pkgStates (env : UEnv) (u : Bool) :
    ∀ (es : List Entry) (st : USt),
    (∀ st₁, unpackLoop env u st es = .ok st₁ → st₁.pkgStates = st.pkgStates) ∧
    (∀ rv st₁, unpackLoop env u st es = .error (rv, st₁) →
      st₁.pkgStates = st.pkgStates) := by
  intro es
  induction es with
  | nil =>
    intro st
    constructor
    · intro st₁ h
      simp [unpackLoop] at h
      rw [← h]
    · intro rv st₁ h
      simp [unpackLoop] at h
  | cons e t ih =>
    intro st
    constructor
    · intro st₁ h
      simp only [unpackLoop] at h
      cases hs : unpackStep env u st e with
      | ok st₂ =>
        rw [hs] at h
        have h₂ := (ih st₂).1 st₁ h
        rw [h₂, (unpackStep_pkgStates env u st e).1 st₂ hs]
      | error r =>
        rw [hs] at h
        cases h
    · intro rv st₁ h
      simp only [unpackLoop] at h
      cases hs : unpackStep env u st e with
      | ok st₂ =>
        rw [hs] at h
        have h₂ := (ih st₂).2 rv st₁ h
        rw [h₂, (unpackStep_pkgStates env u st e).1 st₂ hs]
      | error r =>
        rw [hs] at h
        cases h
        exact (unpackStep_pkgStates env u st e).2 rv st₁ hs

theorem extractTail_trace_any (stm : USt) (e : Entry) (st₀ : USt)
    (h : ∃ l, stm.trace = st₀.trace ++ l) :
    ∃ t, (extractTail stm e).trace = st₀.trace ++ t := by
  obtain ⟨l, hl⟩ := h
  obtain ⟨t₂, ht₂⟩ := extractTail_trace stm e
  exact ⟨l ++ t₂, by rw [ht₂, hl, List.append_assoc]⟩

theorem unpackDataStep_trace (env : UEnv) (u : Bool) (st : USt) (e : Entry)
    (pd : Props) (mf : FilesMf) :
    (∀ st₁, unpackDataStep env u st e pd mf = .ok st₁ →
      ∃ t, st₁.trace = st.trace ++ t) ∧
    (∀ rv st₁, unpackDataStep env u st e pd mf = .error (rv, st₁) →
      ∃ t, st₁.trace = st.trace ++ t) := by
  unfold unpackDataStep
  constructor
  · intro st₁ h
    repeat' split at h
    all_goals
      first
      | exact Except.noConfusion h
      | (injection h with h
         subst h
         first
         | exact ⟨_, rfl⟩
         | exact ⟨[], (List.append_nil _).symm⟩
         | exact extractTail_trace_any _ e st ⟨_, rfl⟩
         | exact extractTail_trace_any _ e st ⟨[], (List.append_nil _).symm⟩)
  · intro rv st₁ h
    repeat' split at h
    all_goals
      first
      | exact Except.noConfusion h
      | (injection h with h
         cases h
         first
         | exact ⟨_, rfl⟩
         | exact ⟨[], (List.append_nil _).symm⟩)

theorem unpackStep_trace (env : UEnv) (u : Bool) (st : USt) (e : Entry) :
    (∀ st₁, unpackStep env u st e = .ok st₁ →
      ∃ t, st₁.trace = st.trace ++ t) ∧
    (∀ rv st₁, unpackStep env u st e = .error (rv, st₁) →
      ∃ t, st₁.trace = st.trace ++ t) := by
  unfold unpackStep
  constructor
  · intro st₁ h
    repeat' split at h
    all_goals
      first
      | exact Except.noConfusion h
      | (injection h with h
         subst h
         first
         | exact ⟨_, rfl⟩
         | exact ⟨[], (List.append_nil _).symm⟩)
      | exact (unpackDataStep_trace env u st e _ _).1 st₁ h
  · intro rv st₁ h
    repeat' split at h
    all_goals
      first
      | exact Except.noConfusion h
      | (injection h with h
         cases h
         first
         | exact ⟨_, rfl⟩
         | exact ⟨[], (List.append_nil _).symm⟩)
      | exact (unpackDataStep_trace env u st e _ _).2 rv st₁ h

theorem unpackLoop_trace (env : UEnv) (u : Bool) :
    ∀ (es : List Entry) (st : USt),
    (∀ st₁, unpackLoop env u st es = .ok st₁ →
      ∃ t, st₁.trace = st.trace ++ t) ∧
    (∀ rv st₁, unpackLoop env u st es = .error (rv, st₁) →
      ∃ t, st₁.trace = st.trace ++ t) := by
  intro es
  induction es with
  | nil =>
    intro st
    constructor
    · intro st₁ h
      simp [unpackLoop] at h
      exact ⟨[], by simp [← h]⟩
    · intro rv st₁ h
      simp [unpackLoop] at h
  | cons e t ih =>
    intro st
    constructor
    · intro st₁ h
      simp only [unpackLoop] at h
      cases hs : unpackStep env u st e with
      | ok st₂ =>
        rw [hs] at h
        obtain ⟨t₂, ht₂⟩ := (ih st₂).1 st₁ h
        obtain ⟨t₁, ht₁⟩ := (unpackStep_trace env u st e).1 st₂ hs
        exact ⟨t₁ ++ t₂, by rw [ht₂, ht₁, List.append_assoc]⟩
      | error r =>
        rw [hs] at h
        cases h
    · intro rv st₁ h
      simp only [unpackLoop] at h
      cases hs : unpackStep env u st e with
      | ok st₂ =>
        rw [hs] at h
        obtain ⟨t₂, ht₂⟩ := (ih st₂).2 rv st₁ h
        obtain ⟨t₁, ht₁⟩ := (unpackStep_trace env u st e).1 st₂ hs
        exact ⟨t₁ ++ t₂, by rw [ht₂, ht₁, List.append_assoc]⟩
      | error r =>
        rw [hs] at h
        cases h
        exact (unpackStep_trace env u st e).2 rv st₁ hs

theorem foldl_obsolete_trace (ps : List String) :
    ∀ st : USt,
    ∃ t, (ps.foldl obsDelStep st).trace = st.trace ++ t := by
  induction ps with
  | nil => intro st; exact ⟨[], by simp⟩
  | cons p t ih =>
    intro st
    obtain ⟨t₂, ht₂⟩ := ih (obsDelStep st p)
    refine ⟨[Act.removeObsolete p] ++ t₂, ?_⟩
    simp only [List.foldl_cons]
    rw [ht₂]
    simp [obsDelStep, List.append_assoc]

theorem removeObsoletes_trace (oldmf newmf : FilesMf) (st : USt) :
    ∃ t, (removeObsoletes oldmf newmf st).trace = st.trace ++ t := by
  unfold removeObsoletes
  exact foldl_obsolete_trace (obsoletePaths oldmf newmf) st

theorem finishMeta_trace (st : USt) :
    ∃ t, (finishMeta st).2.trace = st.trace ++ t := by
  unfold finishMeta
  split
  · exact ⟨[Act.writeFilesPlist], rfl⟩
  · exact ⟨[], by simp⟩

theorem unpackPost_trace (pkg : PkgDict) (st : USt) :
    ∃ t, (unpackPost pkg st).2.trace = st.trace ++ t := by
  unfold unpackPost
  split
  · exact ⟨[], by simp⟩
  · split
    · exact finishMeta_trace st
    · split
      · rename_i oldmf heq
        obtain ⟨t₁, ht₁⟩ := removeObsoletes_trace oldmf (st.filesd.getD {}) st
        obtain ⟨t₂, ht₂⟩ :=
          finishMeta_trace (removeObsoletes oldmf (st.filesd.getD {}) st)
        exact ⟨t₁ ++ t₂, by rw [ht₂, ht₁, List.append_assoc]⟩
      · exact finishMeta_trace st

theorem unpackPre_pkgStates (pkg : PkgDict) (st : USt) :
    (unpackPre pkg st).pkgStates = st.pkgStates := by
  unfold unpackPre
  split <;> rfl

/-! ### Claim theorems -/

/-- C7: before both manifests have been internalized, a non-directory
archive entry that is none of the four special entries is skipped
without being extracted (the filesystem and every other component of the
state except the quirk counter and the trace are unchanged) as long as
fewer than three such entries have been tolerated, and once the counter
reaches the bound the unpack fails fatally with ENODEV, the
invalid-binary-package error. -/
theorem claim_C7 (env : UEnv) (update : Bool) (st : USt) (e : Entry)
    (hnd : e.kind ≠ EKind.dir)
    (hni : e.pname ≠ "./INSTALL") (hnr : e.pname ≠ "./REMOVE")
    (hnf : e.pname ≠ "./files.plist") (hnp : e.pname ≠ "./props.plist")
    (hdoc : st.propsd = none ∨ st.filesd = none) :
    (st.entry_idx < 3 →
      unpackStep env update st e =
        .ok { st with entry_idx := st.entry_idx + 1,
                      trace := st.trace ++ [.skipEntry e.pname] }) ∧
    (3 ≤ st.entry_idx → unpackStep env update st e = .error (ENODEV, st)) := by
  constructor
  · intro hlt
    unfold unpackStep
    rcases hdoc with h | h
    · simp [hnd, hni, hnr, hnf, hnp, h, Nat.not_le.mpr hlt]
    · cases hpd : st.propsd <;>
        simp [hnd, hni, hnr, hnf, hnp, h, hpd, Nat.not_le.mpr hlt]
  · intro hge
    unfold unpackStep
    rcases hdoc with h | h
    · simp [hnd, hni, hnr, hnf, hnp, h, hge]
    · cases hpd : st.propsd <;>
        simp [hnd, hni, hnr, hnf, hnp, h, hpd, hge]

/-- Witness for C7 at a concrete quirk entry and the empty start state. -/
theorem claim_C7_witness :
    unpackStep {} false {} eQuirk =
      .ok { (({} : USt)) with entry_idx := 1,
                              trace := [Act.skipEntry "./q"] } :=
  (claim_C7 {} false {} eQuirk (by decide) (by decide) (by decide)
    (by decide) (by decide) (Or.inl rfl)).1 (by decide)

/-- C8: in update mode, a regular non-special data-file entry whose path
already exists on disk and whose on-disk digest equals the digest the
new manifest records for that path is skipped: only the skip is traced,
the filesystem is unchanged, so the on-disk file is byte-identical
before and after the step. -/
theorem claim_C8 (env : UEnv) (st : USt) (e : Entry) (pd : Props)
    (mf : FilesMf) (c dig : String)
    (hreg : e.kind = EKind.reg)
    (hni : e.pname ≠ "./INSTALL") (hnr : e.pname ≠ "./REMOVE")
    (hnf : e.pname ≠ "./files.plist") (hnp : e.pname ≠ "./props.plist")
    (hp : st.propsd = some pd) (hf : st.filesd = some mf)
    (hex : st.fs.lookup e.pname = some c)
    (hdig : (if pd.conf_files.contains e.pname then mf.conf_files
             else mf.files).lookup e.pname = some dig)
    (hmatch : env.hashFn c = dig) :
    unpackStep env true st e =
      .ok { st with trace := st.trace ++ [.skipEntry e.pname] } := by
  have hknd : e.kind ≠ EKind.dir := by rw [hreg]; intro hc; cases hc
  cases hc : pd.conf_files.contains e.pname with
  | false =>
    have hmem : e.pname ∉ pd.conf_files := by simpa using hc
    rw [hc] at hdig
    simp only [Bool.false_eq_true, if_false] at hdig
    simp [unpackStep, unpackDataStep, hashCheckDict, hknd, hni, hnr, hnf,
      hnp, hp, hf, hreg, hex, hc, hmem, hdig, hmatch]
  | true =>
    have hmem : e.pname ∈ pd.conf_files := by simpa using hc
    rw [hc] at hdig
    simp only [if_true] at hdig
    simp [unpackStep, unpackDataStep, hashCheckDict, hknd, hni, hnr, hnf,
      hnp, hp, hf, hreg, hex, hc, hmem, hdig, hmatch]

/-- Witness for C8 at a concrete update-mode skip scenario. -/
theorem claim_C8_witness :
    unpackStep {} true stSkipA eSkipA =
      .ok { stSkipA with trace := [Act.skipEntry "./a"] } :=
  claim_C8 {} stSkipA eSkipA pdPlain mfAB "A" "A" (by decide) (by decide)
    (by decide) (by decide) (by decide) rfl rfl (by decide) (by decide) rfl

/-- C10: when the binary package path cannot be determined from the
repository URI, when the archive reader cannot be allocated, or when the
archive file cannot be opened, xbps_unpack_binary_pkg returns the
corresponding non-zero error and the state, in particular the persisted
install-state store, is exactly the caller's: the half-unpacked marker
is written only after a successful open. -/
theorem claim_C10 (wenv : WEnv) (env : UEnv) (pkg : PkgDict) (st0 : USt)
    (es : List Entry) :
    (wenv.bpkgPath = none → wenv.pathErrno ≠ 0 →
      xbps_unpack_binary_pkg wenv env pkg st0 es = (wenv.pathErrno, st0) ∧
      (xbps_unpack_binary_pkg wenv env pkg st0 es).1 ≠ 0) ∧
    (wenv.bpkgPath ≠ none → wenv.archiveNewFails = true →
      xbps_unpack_binary_pkg wenv env pkg st0 es = (ENOMEM, st0) ∧
      (xbps_unpack_binary_pkg wenv env pkg st0 es).1 ≠ 0) ∧
    (wenv.bpkgPath ≠ none → wenv.archiveNewFails = false →
      wenv.openFails = true → wenv.openErrno ≠ 0 →
      xbps_unpack_binary_pkg wenv env pkg st0 es = (wenv.openErrno, st0) ∧
      (xbps_unpack_binary_pkg wenv env pkg st0 es).1 ≠ 0) := by
  refine ⟨?_, ?_, ?_⟩
  · intro hb hne
    have h : xbps_unpack_binary_pkg wenv env pkg st0 es = (wenv.pathErrno, st0) := by
      unfold xbps_unpack_binary_pkg
      rw [hb]
    exact ⟨h, by rw [h]; exact hne⟩
  · intro hb hn
    obtain ⟨p, hp⟩ := Option.ne_none_iff_exists.mp hb
    have h : xbps_unpack_binary_pkg wenv env pkg st0 es = (ENOMEM, st0) := by
      unfold xbps_unpack_binary_pkg
      rw [← hp]
      simp [hn]
    refine ⟨h, ?_⟩
    rw [h]
    show ENOMEM ≠ 0
    decide
  · intro hb hn ho hne
    obtain ⟨p, hp⟩ := Option.ne_none_iff_exists.mp hb
    have h : xbps_unpack_binary_pkg wenv env pkg st0 es = (wenv.openErrno, st0) := by
      unfold xbps_unpack_binary_pkg
      rw [← hp]
      simp [hn, ho]
    exact ⟨h, by rw [h]; exact hne⟩

/-- Witness for C10 on a concrete failing open. -/
theorem claim_C10_witness :
    xbps_unpack_binary_pkg { openFails := true, openErrno := 13 } {} {} {}
        [ePropsPlain] = (13, ({} : USt)) ∧
    (xbps_unpack_binary_pkg { openFails := true, openErrno := 13 } {} {} {}
        [ePropsPlain]).1 ≠ 0 :=
  (claim_C10 { openFails := true, openErrno := 13 } {} {} {}
    [ePropsPlain]).2.2 (by decide) rfl rfl (by decide)

/-- Counterexample to C2: on the archive props.plist, files.plist, ./a
(whose extraction fails with errno 5), ./b, the unpack does propagate
error 5, but the entry ./b coming after the failing ./a is still
extracted — the trace shows the extraction after the failure and ./b is
on disk at the end — contradicting the claim that no later entry of
the stream is extracted after a failing one. -/
theorem claim_C2_counterexample :
    (unpack_archive {} {} {} [ePropsPlain, eFilesAB, eAfail, eBok]).1 = 5 ∧
    (unpack_archive {} {} {} [ePropsPlain, eFilesAB, eAfail, eBok]).2.trace =
      [Act.ensureRootdir, Act.chdirRoot, Act.extractMeta "props.plist",
       Act.internalizeFiles, Act.extractFail "./a" 5, Act.extractData "./b"] ∧
    (unpack_archive {} {} {} [ePropsPlain, eFilesAB, eAfail,
      eBok]).2.fs.lookup "./b" = some "B" := by
  decide

/-- C2 as amended: a failed extraction of a regular data-file entry does
not abort the loop — the failure is recorded in the sticky archive errno
and processing continues with the remaining entries — while metadata,
hash-check and configuration-file errors abort immediately (they are
Except.error steps); after a loop that ran to completion, a non-zero
sticky archive errno is propagated as the result of unpack_archive. -/
theorem claim_C2_amended (env : UEnv) (update : Bool) (pkg : PkgDict)
    (st0 stI st₁ st₂ : USt) (e : Entry) (es₁ es₂ esA : List Entry)
    (pd : Props) (mf : FilesMf)
    (hpre : unpackLoop env update stI es₁ = .ok st₁)
    (hp : st₁.propsd = some pd) (hf : st₁.filesd = some mf)
    (hreg : e.kind = EKind.reg)
    (hni : e.pname ≠ "./INSTALL") (hnr : e.pname ≠ "./REMOVE")
    (hnf : e.pname ≠ "./files.plist") (hnp : e.pname ≠ "./props.plist")
    (hnofile : st₁.fs.lookup e.pname = none)
    (hfail : e.extractFails = true)
    (hloopA : unpackLoop env (pkg.transaction = "update")
      (unpackPre pkg st0) esA = .ok st₂)
    (harE : st₂.arErrno ≠ 0) :
    unpackLoop env update stI (es₁ ++ e :: es₂) =
      unpackLoop env update
        { st₁ with
          arErrno := e.failCode,
          trace := st₁.trace ++ [Act.extractFail e.pname e.failCode] }
        es₂ ∧
    unpack_archive env pkg st0 esA = (st₂.arErrno, st₂) := by
  constructor
  · rw [unpackLoop_append, hpre]
    have hknd : e.kind ≠ EKind.dir := by rw [hreg]; intro hcc; cases hcc
    have hstep : unpackStep env update st₁ e = .ok
        { st₁ with
          arErrno := e.failCode,
          trace := st₁.trace ++ [Act.extractFail e.pname e.failCode] } := by
      simp [unpackStep, unpackDataStep, extractTail, hknd, hni, hnr, hnf,
        hnp, hp, hf, hreg, hnofile, hfail]
    simp only [unpackLoop]
    rw [hstep]
  · unfold unpack_archive
    rw [hloopA]
    simp [unpackPost, harE]

/-- Witness for C2 as amended, on the concrete failing archive. -/
theorem claim_C2_amended_witness :
    unpackLoop {} false ({} : USt) ([ePropsPlain, eFilesAB] ++ eAfail :: [eBok]) =
      unpackLoop {} false
        { stC2mid with
            arErrno := eAfail.failCode,
            trace := stC2mid.trace ++ [Act.extractFail eAfail.pname eAfail.failCode] }
        [eBok] ∧
    unpack_archive {} {} {} [ePropsPlain, eFilesAB, eAfail] =
      (stC2end.arErrno, stC2end) :=
  claim_C2_amended {} false {} {} {} stC2mid stC2end eAfail
    [ePropsPlain, eFilesAB] [eBok] [ePropsPlain, eFilesAB, eAfail]
    pdPlain mfAB (by decide) (by decide) (by decide) (by decide) (by decide)
    (by decide) (by decide) (by decide) (by decide) (by decide) (by decide)
    (by decide)

/-- Counterexample to C3: in install mode with a pre-existing
configuration file at ./etc/c whose digest equals the digest the new
manifest records, the entry is skipped entirely: no ./etc/c.old backup
is created, the on-disk file keeps its old content, no
config-file-preserved notice is emitted, and the unpack succeeds —
contradicting the claim that the rename-and-extract happens with no
further condition on the existing file's digest. -/
theorem claim_C3_counterexample :
    (unpack_archive {} {} stConfOld [ePropsConf, eFilesConfOld,
      eConfNew]).2.fs.lookup "./etc/c.old" = none ∧
    (unpack_archive {} {} stConfOld [ePropsConf, eFilesConfOld,
      eConfNew]).2.fs.lookup "./etc/c" = some "OLD" ∧
    Act.notice "./etc/c" ∉
      (unpack_archive {} {} stConfOld [ePropsConf, eFilesConfOld,
        eConfNew]).2.trace ∧
    (unpack_archive {} {} stConfOld [ePropsConf, eFilesConfOld,
      eConfNew]).1 = 0 := by
  decide

/-- C3 as amended: in install mode, for a pre-existing configuration
file whose on-disk digest differs from the digest recorded in the new
manifest (a matching digest skips the entry and a failed check aborts),
and whose extraction succeeds, the old file is renamed to path.old
keeping its content, the new content is extracted at the path, and the
config-file-preserved notice is emitted. -/
theorem claim_C3_amended (env : UEnv) (st : USt) (e : Entry) (pd : Props)
    (mf : FilesMf) (c dig : String)
    (hreg : e.kind = EKind.reg)
    (hni : e.pname ≠ "./INSTALL") (hnr : e.pname ≠ "./REMOVE")
    (hnf : e.pname ≠ "./files.plist") (hnp : e.pname ≠ "./props.plist")
    (hp : st.propsd = some pd) (hf : st.filesd = some mf)
    (hconf : pd.conf_files.contains e.pname = true)
    (hex : st.fs.lookup e.pname = some c)
    (hdig : mf.conf_files.lookup e.pname = some dig)
    (hne : env.hashFn c ≠ dig)
    (hok : e.extractFails = false) :
    ∃ st', unpackStep env false st e = .ok st' ∧
      st'.fs.lookup (e.pname ++ ".old") = some c ∧
      st'.fs.lookup e.pname = some e.content ∧
      st'.trace = st.trace ++ [.renameOld e.pname, .notice e.pname,
        .extractData e.pname] := by
  have hknd : e.kind ≠ EKind.dir := by rw [hreg]; intro hcc; cases hcc
  have hmem : e.pname ∈ pd.conf_files := by simpa using hconf
  refine ⟨{ st with
      fs := assocSet (assocSet (assocDel st.fs e.pname)
        (e.pname ++ ".old") c) e.pname e.content,
      trace := st.trace ++ [.renameOld e.pname, .notice e.pname,
        .extractData e.pname] }, ?_, ?_, ?_, rfl⟩
  · simp [unpackStep, unpackDataStep, extractTail, hashCheckDict, hknd,
      hni, hnr, hnf, hnp, hp, hf, hreg, hconf, hmem, hex, hdig, hne, hok]
  · rw [assocSet_lookup_ne _ _ _ _ (Ne.symm (string_ne_append_old e.pname))]
    exact assocSet_lookup_same _ _ _
  · exact assocSet_lookup_same _ _ _

/-- Witness for C3 as amended: the same scenario as the counterexample
but with differing digests. -/
theorem claim_C3_amended_witness :
    ∃ st', unpackStep {} false
        { stConfOld with
          propsd := some pdConf,
          filesd := some { conf_files := [("./etc/c", "NEW")] } }
        eConfNew = .ok st' ∧
      st'.fs.lookup ("./etc/c" ++ ".old") = some "OLD" ∧
      st'.fs.lookup "./etc/c" = some eConfNew.content ∧
      st'.trace = ({ stConfOld with
          propsd := some pdConf,
          filesd := some { conf_files := [("./etc/c", "NEW")] } } : USt).trace
        ++ [Act.renameOld "./etc/c", Act.notice "./etc/c",
            Act.extractData "./etc/c"] :=
  claim_C3_amended {}
    { stConfOld with
      propsd := some pdConf,
      filesd := some { conf_files := [("./etc/c", "NEW")] } }
    eConfNew pdConf { conf_files := [("./etc/c", "NEW")] } "OLD" "NEW"
    (by decide) (by decide) (by decide) (by decide) (by decide) rfl rfl
    (by decide) (by decide) (by decide) (by decide) (by decide)

/-- C4: when the INSTALL entry's extraction succeeds but its pre-install
action exits with a non-zero status, the whole unpack aborts with that
exit status as its error, the result does not depend on anything after
the INSTALL entry in the stream (no further entry is processed), and the
persisted install state of the package remains half-unpacked, as it was
written before the archive loop started and is never rolled back. -/
theorem claim_C4 (wenv : WEnv) (env : UEnv) (pkg : PkgDict) (st0 st₁ : USt)
    (es₁ es₂ es₂' : List Entry) (e : Entry) (p : String)
    (hb : wenv.bpkgPath = some p) (hn : wenv.archiveNewFails = false)
    (ho : wenv.openFails = false)
    (hpre : unpackLoop env (pkg.transaction = "update")
      (unpackPre pkg (writeState st0 pkg.pkgname PkgState.halfUnpacked))
      es₁ = .ok st₁)
    (hinst : e.pname = "./INSTALL") (hk : e.kind ≠ EKind.dir)
    (hef : e.extractFails = false) (hexit : env.installExit ≠ 0) :
    (xbps_unpack_binary_pkg wenv env pkg st0 (es₁ ++ e :: es₂)).1 =
      env.installExit ∧
    xbps_unpack_binary_pkg wenv env pkg st0 (es₁ ++ e :: es₂) =
      xbps_unpack_binary_pkg wenv env pkg st0 (es₁ ++ e :: es₂') ∧
    (xbps_unpack_binary_pkg wenv env pkg st0
      (es₁ ++ e :: es₂)).2.pkgStates.lookup pkg.pkgname =
      some PkgState.halfUnpacked := by
  have hstep : unpackStep env (pkg.transaction = "update") st₁ e =
      .error (env.installExit,
        { st₁ with
          meta := assocSet st₁.meta "INSTALL" e.content,
          trace := st₁.trace ++ [Act.extractMeta "INSTALL",
                                 Act.execInstallPre] }) := by
    simp [unpackStep, hk, hinst, hef, hexit]
  have harchinner : ∀ es₂x : List Entry,
      unpack_archive env pkg
        (writeState st0 pkg.pkgname PkgState.halfUnpacked)
        (es₁ ++ e :: es₂x) =
      (env.installExit,
        { st₁ with
          meta := assocSet st₁.meta "INSTALL" e.content,
          trace := st₁.trace ++ [Act.extractMeta "INSTALL",
                                 Act.execInstallPre] }) := by
    intro es₂x
    unfold unpack_archive
    rw [unpackLoop_append, hpre]
    simp only [unpackLoop]
    rw [hstep]
  have harch : ∀ es₂x : List Entry,
      xbps_unpack_binary_pkg wenv env pkg st0 (es₁ ++ e :: es₂x) =
      (env.installExit,
        { st₁ with
          meta := assocSet st₁.meta "INSTALL" e.content,
          trace := st₁.trace ++ [Act.extractMeta "INSTALL",
                                 Act.execInstallPre] }) := by
    intro es₂x
    unfold xbps_unpack_binary_pkg
    rw [hb]
    simp [hn, ho, harchinner es₂x, hexit]
  refine ⟨by rw [harch es₂], by rw [harch es₂, harch es₂'], ?_⟩
  rw [harch es₂]
  have h₁ : st₁.pkgStates = (unpackPre pkg
      (writeState st0 pkg.pkgname PkgState.halfUnpacked)).pkgStates :=
    (unpackLoop_pkgStates env (pkg.transaction = "update") es₁
      (unpackPre pkg
        (writeState st0 pkg.pkgname PkgState.halfUnpacked))).1 st₁ hpre
  show st₁.pkgStates.lookup pkg.pkgname = some PkgState.halfUnpacked
  rw [h₁, unpackPre_pkgStates]
  exact assocSet_lookup_same _ _ _

/-- Witness for C4: the INSTALL script exiting 7 leaves the state
half-unpacked and the error 7, independently of the stream tail. -/
theorem claim_C4_witness :
    (xbps_unpack_binary_pkg {} envExit7 {} {}
      ([] ++ eInstall :: [ePropsPlain])).1 = envExit7.installExit ∧
    xbps_unpack_binary_pkg {} envExit7 {} {} ([] ++ eInstall :: [ePropsPlain]) =
      xbps_unpack_binary_pkg {} envExit7 {} {} ([] ++ eInstall :: []) ∧
    (xbps_unpack_binary_pkg {} envExit7 {} {}
      ([] ++ eInstall :: [ePropsPlain])).2.pkgStates.lookup
        ({} : PkgDict).pkgname = some PkgState.halfUnpacked :=
  claim_C4 {} envExit7 {} {} stC4pre [] [ePropsPlain] [] eInstall
    "binpkg.xbps" rfl rfl rfl (by decide) (by decide) (by decide)
    (by decide) (by decide)

/-- Counterexample to C9: in an update-mode run, the half-unpacked state
write is the very first action of the trace, occurring before the root
directory resolution and before the deletion of the old INSTALL and
REMOVE scripts — so the half-unpacked state is persisted before the old
scripts are deleted, contradicting the claimed order. -/
theorem claim_C9_counterexample :
    (xbps_unpack_binary_pkg {} {} pkgUpd {} []).2.trace =
      [Act.stateWrite PkgState.halfUnpacked, Act.ensureRootdir,
       Act.chdirRoot, Act.removeMeta "INSTALL", Act.removeMeta "REMOVE"] ∧
    (xbps_unpack_binary_pkg {} {} pkgUpd {} []).2.trace.indexOf
        (Act.stateWrite PkgState.halfUnpacked) <
      (xbps_unpack_binary_pkg {} {} pkgUpd {} []).2.trace.indexOf
        (Act.removeMeta "INSTALL") := by
  decide

/-- C9 as amended: every update-mode unpack whose archive open succeeds
begins, in order, with the half-unpacked state write, then the root
directory resolution and chdir, then the deletion of the previously
installed INSTALL and REMOVE scripts, and only then the rest of the
operation. -/
theorem claim_C9_amended (wenv : WEnv) (env : UEnv) (pkg : PkgDict)
    (st0 : USt) (es : List Entry) (p : String)
    (hb : wenv.bpkgPath = some p) (hn : wenv.archiveNewFails = false)
    (ho : wenv.openFails = false) (hupd : pkg.transaction = "update") :
    ∃ rest, (xbps_unpack_binary_pkg wenv env pkg st0 es).2.trace =
      st0.trace ++ [Act.stateWrite PkgState.halfUnpacked, Act.ensureRootdir,
        Act.chdirRoot, Act.removeMeta "INSTALL", Act.removeMeta "REMOVE"]
      ++ rest := by
  have hpretr : (unpackPre pkg
      (writeState st0 pkg.pkgname PkgState.halfUnpacked)).trace =
      st0.trace ++ [Act.stateWrite PkgState.halfUnpacked, Act.ensureRootdir,
        Act.chdirRoot, Act.removeMeta "INSTALL",
        Act.removeMeta "REMOVE"] := by
    simp [unpackPre, writeState, hupd]
  have harch : ∃ t, (unpack_archive env pkg
      (writeState st0 pkg.pkgname PkgState.halfUnpacked) es).2.trace =
      (unpackPre pkg
        (writeState st0 pkg.pkgname PkgState.halfUnpacked)).trace ++ t := by
    unfold unpack_archive
    cases hl : unpackLoop env (pkg.transaction = "update")
        (unpackPre pkg (writeState st0 pkg.pkgname PkgState.halfUnpacked))
        es with
    | ok st₁ =>
      obtain ⟨t₁, ht₁⟩ := (unpackLoop_trace env _ es _).1 st₁ hl
      obtain ⟨t₂, ht₂⟩ := unpackPost_trace pkg st₁
      exact ⟨t₁ ++ t₂, by rw [ht₂, ht₁, List.append_assoc]⟩
    | error r =>
      cases r with
      | mk rv st₁ =>
        obtain ⟨t₁, ht₁⟩ := (unpackLoop_trace env _ es _).2 rv st₁ hl
        exact ⟨t₁, ht₁⟩
  obtain ⟨t, ht⟩ := harch
  rw [hpretr] at ht
  unfold xbps_unpack_binary_pkg
  rw [hb]
  simp only [hn, ho, Bool.false_eq_true, if_false]
  by_cases hz : (unpack_archive env pkg
      (writeState st0 pkg.pkgname PkgState.halfUnpacked) es).1 ≠ 0
  · rw [if_pos hz]
    exact ⟨t, ht⟩
  · rw [if_neg hz]
    refine ⟨t ++ [Act.stateWrite PkgState.unpacked], ?_⟩
    show (unpack_archive env pkg
      (writeState st0 pkg.pkgname PkgState.halfUnpacked) es).2.trace ++
        [Act.stateWrite PkgState.unpacked] = _
    rw [ht, List.append_assoc]

/-- Witness for C9 as amended at a concrete update-mode run. -/
theorem claim_C9_amended_witness :
    ∃ rest, (xbps_unpack_binary_pkg {} {} pkgUpd {} []).2.trace =
      (({} : USt)).trace ++ [Act.stateWrite PkgState.halfUnpacked,
        Act.ensureRootdir, Act.chdirRoot, Act.removeMeta "INSTALL",
        Act.removeMeta "REMOVE"] ++ rest :=
  claim_C9_amended {} {} pkgUpd {} [] "binpkg.xbps" rfl rfl rfl rfl

/-! ### Resolver lemmas and claims -/

theorem scanFindPkg_eq_find? (patmatch : String → String → Bool)
    (bypattern : Bool) (pattern : String) :
    ∀ pool : List RepoIndex,
    scanFindPkg patmatch bypattern pattern pool =
      (pool.find? (fun r =>
        (repoHitCV patmatch bypattern pattern r).isSome)).bind
        (fun r => (repoHitCV patmatch bypattern pattern r).map
          (fun d => annotate d r.rpi_uri)) := by
  intro pool
  induction pool with
  | nil => rfl
  | cons r rs ih =>
    simp only [scanFindPkg, List.find?]
    cases hcv : repoHitCV patmatch bypattern pattern r with
    | some d => simp [hcv]
    | none => simp [hcv, ih]

/-- C5: with best = false, the resolver returns the annotated hit of the
first repository in iteration order whose per-repository lookup
succeeds — so a matching first repository wins even when a later
repository holds a higher version — and within one repository the
concrete packages catalog is consulted first, the virtual catalog only
when the concrete lookup found nothing. -/
theorem claim_C5 (gt patmatch : String → String → Bool)
    (pool : List RepoIndex) (pattern : String) (bypattern : Bool) :
    xbps_repository_pool_find_pkg gt patmatch pool pattern bypattern false =
      ((pool.find? (fun r =>
          (repoHitCV patmatch bypattern pattern r).isSome)).bind
        (fun r => (repoHitCV patmatch bypattern pattern r).map
          (fun d => annotate d r.rpi_uri)), 0) ∧
    (∀ r d, lookupPkgOpt patmatch bypattern pattern r = some d →
      repoHitCV patmatch bypattern pattern r = some d) ∧
    (∀ r, lookupPkgOpt patmatch bypattern pattern r = none →
      repoHitCV patmatch bypattern pattern r =
        lookupVirtualOpt patmatch bypattern pattern r) := by
  refine ⟨?_, ?_, ?_⟩
  · show (scanFindPkg patmatch bypattern pattern pool, 0) = _
    rw [scanFindPkg_eq_find? patmatch bypattern pattern pool]
  · intro r d h
    unfold repoHitCV
    rw [h]
  · intro r h
    unfold repoHitCV
    rw [h]

/-- Counterexample to C6: in by-name mode (best = false) an I/O error in
the first repository's lookup neither aborts the scan nor surfaces an
error code: the second repository is consulted, its match is returned,
and the errno outcome is 0 — the error was conflated with not-found. -/
theorem claim_C6_counterexample :
    xbps_repository_pool_find_pkg sgt pm0 [repoErr, repoA] "foo" false false =
      (some { dFoo1 with repository := some "http://a" }, 0) := by
  decide

theorem scanFindPkg_err_transparent (patmatch : String → String → Bool)
    (bypattern : Bool) (pattern : String) (r : RepoIndex) (e : Nat)
    (he : r.err = some e) (pool₂ : List RepoIndex) :
    ∀ pool₁ : List RepoIndex,
    scanFindPkg patmatch bypattern pattern (pool₁ ++ r :: pool₂) =
      scanFindPkg patmatch bypattern pattern (pool₁ ++ pool₂) := by
  intro pool₁
  induction pool₁ with
  | nil =>
    simp [scanFindPkg, repoHitCV, lookupPkgOpt, lookupVirtualOpt, he]
  | cons r' rs ih =>
    simp only [List.cons_append, scanFindPkg]
    cases hcv : repoHitCV patmatch bypattern pattern r' <;> simp [hcv, ih]

theorem scanFindVirtual_err_transparent (patmatch : String → String → Bool)
    (bypattern : Bool) (pattern : String) (r : RepoIndex) (e : Nat)
    (he : r.err = some e) (pool₂ : List RepoIndex) :
    ∀ pool₁ : List RepoIndex,
    scanFindVirtual patmatch bypattern pattern (pool₁ ++ r :: pool₂) =
      scanFindVirtual patmatch bypattern pattern (pool₁ ++ pool₂) := by
  intro pool₁
  induction pool₁ with
  | nil =>
    simp [scanFindVirtual, lookupVirtualConfOpt, he]
  | cons r' rs ih =>
    simp only [List.cons_append, scanFindVirtual]
    cases hcv : lookupVirtualConfOpt patmatch bypattern pattern r' <;>
      simp [hcv, ih]

theorem scanFindExact_err_transparent (v : String) (r : RepoIndex) (e : Nat)
    (he : r.err = some e) (pool₂ : List RepoIndex) :
    ∀ pool₁ : List RepoIndex,
    scanFindExact none v (pool₁ ++ r :: pool₂) =
      scanFindExact none v (pool₁ ++ pool₂) := by
  intro pool₁
  induction pool₁ with
  | nil =>
    simp [scanFindExact, lookupExactOpt, he]
  | cons r' rs ih =>
    simp only [List.cons_append, scanFindExact]
    cases hcv : lookupExactOpt v r' <;> simp [hcv, ih]

theorem scanFindPkg_none (patmatch : String → String → Bool)
    (bypattern : Bool) (pattern : String) :
    ∀ pool : List RepoIndex,
    (∀ r ∈ pool, lookupPkgOpt patmatch bypattern pattern r = none ∧
      lookupVirtualOpt patmatch bypattern pattern r = none) →
    scanFindPkg patmatch bypattern pattern pool = none := by
  intro pool
  induction pool with
  | nil => intro _; rfl
  | cons r rs ih =>
    intro h
    have hr := h r (List.mem_cons_self r rs)
    simp only [scanFindPkg, repoHitCV, hr.1, hr.2]
    exact ih (fun r' hr' => h r' (List.mem_cons_of_mem r hr'))

theorem scanFindVirtual_none (patmatch : String → String → Bool)
    (bypattern : Bool) (pattern : String) :
    ∀ pool : List RepoIndex,
    (∀ r ∈ pool, lookupVirtualConfOpt patmatch bypattern pattern r = none) →
    scanFindVirtual patmatch bypattern pattern pool = none := by
  intro pool
  induction pool with
  | nil => intro _; rfl
  | cons r rs ih =>
    intro h
    simp only [scanFindVirtual, h r (List.mem_cons_self r rs)]
    exact ih (fun r' hr' => h r' (List.mem_cons_of_mem r hr'))

theorem scanFindExact_none (v : String) :
    ∀ pool : List RepoIndex,
    (∀ r ∈ pool, lookupExactOpt v r = none) →
    scanFindExact none v pool = none := by
  intro pool
  induction pool with
  | nil => intro _; rfl
  | cons r rs ih =>
    intro h
    simp only [scanFindExact, h r (List.mem_cons_self r rs)]
    exact ih (fun r' hr' => h r' (List.mem_cons_of_mem r hr'))

theorem scanBest_none (gt patmatch : String → String → Bool)
    (bypattern : Bool) (pattern : String) :
    ∀ pool : List RepoIndex,
    (∀ r ∈ pool, (∀ e', r.err = some e' → e' = 0 ∨ e' = ENOENT) ∧
      lookupPkgOpt patmatch bypattern pattern r = none) →
    ∀ acc, scanBest gt patmatch bypattern pattern pool acc = (acc, 0) := by
  intro pool
  induction pool with
  | nil => intro _ acc; rfl
  | cons r rs ih =>
    intro h acc
    have hr := h r (List.mem_cons_self r rs)
    have hrs := fun r' hr' => h r' (List.mem_cons_of_mem r hr')
    cases hre : r.err with
    | some e' =>
      have hcond : ¬ (e' ≠ 0 ∧ e' ≠ ENOENT) := by
        rcases hr.1 e' hre with h0 | h2
        · exact fun hc => hc.1 h0
        · exact fun hc => hc.2 h2
      simp only [scanBest, lookupPkgE, hre, if_neg hcond]
      exact ih hrs acc
    | none =>
      have hf : r.packages.find?
          (descMatches patmatch bypattern pattern) = none := by
        have := hr.2
        unfold lookupPkgOpt at this
        rw [hre] at this
        exact this
      simp only [scanBest, lookupPkgE, hre, hf]
      exact ih hrs acc

theorem scanBest_abort (gt patmatch : String → String → Bool)
    (bypattern : Bool) (pattern : String) (r : RepoIndex) (e : Nat)
    (he : r.err = some e) (he0 : e ≠ 0) (heno : e ≠ ENOENT)
    (pool₂ : List RepoIndex) :
    ∀ (pool₁ : List RepoIndex),
    (∀ r' ∈ pool₁, ∀ e', r'.err = some e' → e' = 0 ∨ e' = ENOENT) →
    ∀ acc : BestAcc,
    scanBest gt patmatch bypattern pattern (pool₁ ++ r :: pool₂) acc =
      scanBest gt patmatch bypattern pattern (pool₁ ++ [r]) acc ∧
    (scanBest gt patmatch bypattern pattern (pool₁ ++ r :: pool₂) acc).2 = e := by
  intro pool₁
  induction pool₁ with
  | nil =>
    intro _ acc
    have hcond : e ≠ 0 ∧ e ≠ ENOENT := ⟨he0, heno⟩
    constructor
    · simp [scanBest, lookupPkgE, he, hcond]
    · simp [scanBest, lookupPkgE, he, hcond]
  | cons r' rs ih =>
    intro h acc
    have hr' := h r' (List.mem_cons_self r' rs)
    have hrs := fun r'' hr'' => h r'' (List.mem_cons_of_mem r' hr'')
    cases hre : r'.err with
    | some e' =>
      have hcond : ¬ (e' ≠ 0 ∧ e' ≠ ENOENT) := by
        rcases hr' e' hre with h0 | h2
        · exact fun hc => hc.1 h0
        · exact fun hc => hc.2 h2
      simp only [List.cons_append, scanBest, lookupPkgE, hre, if_neg hcond]
      exact ih hrs acc
    | none =>
      simp only [List.cons_append, scanBest, lookupPkgE, hre]
      cases hf : r'.packages.find?
          (descMatches patmatch bypattern pattern) with
      | none => exact ih hrs acc
      | some d =>
        cases hacc : acc.bestpkgver with
        | none => exact ih hrs ⟨some d.pkgver, some r'.rpi_uri⟩
        | some b =>
          by_cases hgt : gt d.pkgver b = true
          · simp only [hgt, if_true]
            exact ih hrs ⟨some d.pkgver, some r'.rpi_uri⟩
          · simp only [hgt, if_false]
            exact ih hrs acc

/-- C6 as amended: only the best-version scan distinguishes a lookup
error from not-found — an error with errno outside {0, ENOENT} aborts
the iteration at the erroring repository (the outcome does not depend on
the repositories after it) and is surfaced as the errno of the public
best lookup; in the exact, by-name, by-pattern and virtual modes an
erroring repository is indistinguishable from one with no match: the
scan continues past it and no error code is produced.  Not-found across
all repositories is reported as an empty result with errno untouched in
every mode. -/
theorem claim_C6_amended (gt patmatch : String → String → Bool)
    (pattern : String) (bypattern : Bool)
    (pool₁ pool₂ : List RepoIndex) (r : RepoIndex) (e : Nat)
    (he : r.err = some e) (he0 : e ≠ 0) (heno : e ≠ ENOENT)
    (hok : ∀ r' ∈ pool₁, ∀ e', r'.err = some e' → e' = 0 ∨ e' = ENOENT)
    (hmiss : ∀ r' ∈ pool₁,
      lookupPkgOpt patmatch bypattern pattern r' = none ∧
      lookupVirtualOpt patmatch bypattern pattern r' = none ∧
      lookupVirtualConfOpt patmatch bypattern pattern r' = none ∧
      lookupExactOpt pattern r' = none) :
    ((xbps_repository_pool_find_pkg gt patmatch (pool₁ ++ r :: pool₂)
        pattern bypattern true).2 = e ∧
     scanBest gt patmatch bypattern pattern (pool₁ ++ r :: pool₂)
         ⟨none, none⟩ =
       scanBest gt patmatch bypattern pattern (pool₁ ++ [r]) ⟨none, none⟩) ∧
    (scanFindPkg patmatch bypattern pattern (pool₁ ++ r :: pool₂) =
       scanFindPkg patmatch bypattern pattern (pool₁ ++ pool₂) ∧
     scanFindVirtual patmatch bypattern pattern (pool₁ ++ r :: pool₂) =
       scanFindVirtual patmatch bypattern pattern (pool₁ ++ pool₂) ∧
     scanFindExact none pattern (pool₁ ++ r :: pool₂) =
       scanFindExact none pattern (pool₁ ++ pool₂)) ∧
    (xbps_repository_pool_find_pkg gt patmatch pool₁ pattern bypattern
       false = (none, 0) ∧
     xbps_repository_pool_find_pkg gt patmatch pool₁ pattern bypattern
       true = (none, 0) ∧
     xbps_repository_pool_find_virtualpkg gt patmatch pool₁ pattern
       bypattern false = (none, 0) ∧
     xbps_repository_pool_find_pkg_exact gt patmatch pool₁ pattern =
       (none, 0)) := by
  have habort := scanBest_abort gt patmatch bypattern pattern r e he he0
    heno pool₂ pool₁ hok ⟨none, none⟩
  have hbestnone := scanBest_none gt patmatch bypattern pattern pool₁
    (fun r' hr' => ⟨hok r' hr', (hmiss r' hr').1⟩) ⟨none, none⟩
  refine ⟨⟨?_, habort.1⟩, ⟨?_, ?_, ?_⟩, ⟨?_, ?_, ?_, ?_⟩⟩
  · show (scanBest gt patmatch bypattern pattern (pool₁ ++ r :: pool₂)
      ⟨none, none⟩).2 = e
    exact habort.2
  · exact scanFindPkg_err_transparent patmatch bypattern pattern r e he
      pool₂ pool₁
  · exact scanFindVirtual_err_transparent patmatch bypattern pattern r e
      he pool₂ pool₁
  · exact scanFindExact_err_transparent pattern r e he pool₂ pool₁
  · show (scanFindPkg patmatch bypattern pattern pool₁, 0) = (none, 0)
    rw [scanFindPkg_none patmatch bypattern pattern pool₁
      (fun r' hr' => ⟨(hmiss r' hr').1, (hmiss r' hr').2.1⟩)]
  · show ((match (scanBest gt patmatch bypattern pattern pool₁
        ⟨none, none⟩).1.bestpkgver with
      | some v => scanFindExact none v pool₁
      | none => none),
      (scanBest gt patmatch bypattern pattern pool₁ ⟨none, none⟩).2) =
      (none, 0)
    rw [hbestnone]
  · show (scanFindVirtual patmatch bypattern pattern pool₁, 0) = (none, 0)
    rw [scanFindVirtual_none patmatch bypattern pattern pool₁
      (fun r' hr' => (hmiss r' hr').2.2.1)]
  · show (scanFindExact none pattern pool₁, 0) = (none, 0)
    rw [scanFindExact_none pattern pool₁
      (fun r' hr' => (hmiss r' hr').2.2.2)]

/-- Witness for C6 as amended on a concrete pool: an empty repository,
then an erroring one, then a matching one. -/
theorem claim_C6_amended_witness :
    ((xbps_repository_pool_find_pkg sgt pm0 ([repoMiss] ++ repoErr ::
        [repoA]) "foo" false true).2 = 5 ∧
     scanBest sgt pm0 false "foo" ([repoMiss] ++ repoErr :: [repoA])
         ⟨none, none⟩ =
       scanBest sgt pm0 false "foo" ([repoMiss] ++ [repoErr])
         ⟨none, none⟩) ∧
    (scanFindPkg pm0 false "foo" ([repoMiss] ++ repoErr :: [repoA]) =
       scanFindPkg pm0 false "foo" ([repoMiss] ++ [repoA]) ∧
     scanFindVirtual pm0 false "foo" ([repoMiss] ++ repoErr :: [repoA]) =
       scanFindVirtual pm0 false "foo" ([repoMiss] ++ [repoA]) ∧
     scanFindExact none "foo" ([repoMiss] ++ repoErr :: [repoA]) =
       scanFindExact none "foo" ([repoMiss] ++ [repoA])) ∧
    (xbps_repository_pool_find_pkg sgt pm0 [repoMiss] "foo" false false =
       (none, 0) ∧
     xbps_repository_pool_find_pkg sgt pm0 [repoMiss] "foo" false true =
       (none, 0) ∧
     xbps_repository_pool_find_virtualpkg sgt pm0 [repoMiss] "foo" false
       false = (none, 0) ∧
     xbps_repository_pool_find_pkg_exact sgt pm0 [repoMiss] "foo" =
       (none, 0)) :=
  claim_C6_amended sgt pm0 "foo" false [repoMiss] [repoA] repoErr 5
    (by decide) (by decide) (by decide) (by decide) (by decide)

theorem bestHits_cons (patmatch : String → String → Bool) (bypattern : Bool)
    (pattern : String) (r : RepoIndex) (rs : List RepoIndex) :
    bestHits patmatch bypattern pattern (r :: rs) =
      (match lookupPkgOpt patmatch bypattern pattern r with
       | some d => (d.pkgver, r.rpi_uri) ::
           bestHits patmatch bypattern pattern rs
       | none => bestHits patmatch bypattern pattern rs) := by
  unfold bestHits
  rw [List.filterMap_cons]
  cases lookupPkgOpt patmatch bypattern pattern r <;> simp

theorem scanBest_eq_fold (gt patmatch : String → String → Bool)
    (bypattern : Bool) (pattern : String) :
    ∀ (pool : List RepoIndex) (acc : BestAcc),
    (∀ r ∈ pool, r.err = none) →
    scanBest gt patmatch bypattern pattern pool acc =
      (List.foldl (bestStep gt) acc
        (bestHits patmatch bypattern pattern pool), 0) := by
  intro pool
  induction pool with
  | nil => intro acc _; rfl
  | cons r rs ih =>
    intro acc herr
    have hr : r.err = none := herr r (List.mem_cons_self r rs)
    have hrs : ∀ r' ∈ rs, r'.err = none :=
      fun r' h => herr r' (List.mem_cons_of_mem r h)
    have hlo : lookupPkgOpt patmatch bypattern pattern r =
        r.packages.find? (descMatches patmatch bypattern pattern) := by
      unfold lookupPkgOpt
      rw [hr]
    rw [bestHits_cons, hlo]
    cases hf : r.packages.find? (descMatches patmatch bypattern pattern) with
    | none =>
      simp only [scanBest, lookupPkgE, hr, hf]
      exact ih acc hrs
    | some d =>
      simp only [scanBest, lookupPkgE, hr, hf, List.foldl_cons]
      cases hacc : acc.bestpkgver with
      | none =>
        have hstep : bestStep gt acc (d.pkgver, r.rpi_uri) =
            ⟨some d.pkgver, some r.rpi_uri⟩ := by
          simp [bestStep, hacc]
        rw [hstep]
        exact ih _ hrs
      | some b =>
        by_cases hgt : gt d.pkgver b = true
        · have hstep : bestStep gt acc (d.pkgver, r.rpi_uri) =
              ⟨some d.pkgver, some r.rpi_uri⟩ := by
            simp [bestStep, hacc, hgt]
          simp only [hgt, if_true, hstep]
          exact ih _ hrs
        · have hstep : bestStep gt acc (d.pkgver, r.rpi_uri) = acc := by
            simp [bestStep, hacc, hgt]
          simp only [hgt, if_false, hstep]
          exact ih acc hrs

theorem bestFold_invariant (gt : String → String → Bool)
    (Hasym : ∀ a b, gt a b = true → gt b a = true → False)
    (Htrans : ∀ a b c, gt a b = true → gt b c = true → gt a c = true) :
    ∀ (l : List (String × String)) (w u : String),
    ∃ w' u',
      List.foldl (bestStep gt) ⟨some w, some u⟩ l = ⟨some w', some u'⟩ ∧
      (∀ p ∈ l, gt p.1 w' = false) ∧
      gt w w' = false ∧
      ((w' = w ∧ u' = u) ∨ ((w', u') ∈ l ∧ gt w' w = true)) := by
  intro l
  induction l with
  | nil =>
    intro w u
    refine ⟨w, u, rfl, ?_, ?_, Or.inl ⟨rfl, rfl⟩⟩
    · intro p hp
      cases hp
    · cases h : gt w w with
      | true => exact (Hasym w w h h).elim
      | false => rfl
  | cons vx l' ih =>
    intro w u
    obtain ⟨v, x⟩ := vx
    by_cases hvw : gt v w = true
    · obtain ⟨w', u', hfold, hmax, hgtvw', hmem⟩ := ih v x
      have hF : gt w' w = true := by
        rcases hmem with ⟨hev, _⟩ | ⟨_, hgt⟩
        · rw [hev]
          exact hvw
        · exact Htrans w' v w hgt hvw
      have hstep : bestStep gt ⟨some w, some u⟩ (v, x) = ⟨some v, some x⟩ := by
        simp [bestStep, hvw]
      refine ⟨w', u', ?_, ?_, ?_, Or.inr ⟨?_, hF⟩⟩
      · rw [List.foldl_cons, hstep]
        exact hfold
      · intro p hp
        rcases List.mem_cons.mp hp with hp | hp
        · rw [hp]
          exact hgtvw'
        · exact hmax p hp
      · cases h : gt w w' with
        | true => exact (Hasym w w' h hF).elim
        | false => rfl
      · rcases hmem with ⟨hev, heu⟩ | ⟨hm, _⟩
        · rw [hev, heu]
          exact List.mem_cons_self _ _
        · exact List.mem_cons_of_mem _ hm
    · obtain ⟨w', u', hfold, hmax, hgtww', hmem⟩ := ih w u
      have hstep : bestStep gt ⟨some w, some u⟩ (v, x) =
          ⟨some w, some u⟩ := by
        simp [bestStep, hvw]
      refine ⟨w', u', ?_, ?_, hgtww', ?_⟩
      · rw [List.foldl_cons, hstep]
        exact hfold
      · intro p hp
        rcases List.mem_cons.mp hp with hp | hp
        · rw [hp]
          cases hvw' : gt v w' with
          | false => rfl
          | true =>
            exfalso
            rcases hmem with ⟨hew, _⟩ | ⟨_, hgt⟩
            · rw [hew] at hvw'
              exact hvw hvw'
            · exact hvw (Htrans v w' w hvw' hgt)
        · exact hmax p hp
      · rcases hmem with h | ⟨hm, hgt⟩
        · exact Or.inl h
        · exact Or.inr ⟨List.mem_cons_of_mem _ hm, hgt⟩

theorem scanBest_spec (gt patmatch : String → String → Bool)
    (bypattern : Bool) (pattern : String) (pool : List RepoIndex)
    (Hasym : ∀ a b, gt a b = true → gt b a = true → False)
    (Htrans : ∀ a b c, gt a b = true → gt b c = true → gt a c = true)
    (herr : ∀ r ∈ pool, r.err = none)
    (hne : bestHits patmatch bypattern pattern pool ≠ []) :
    ∃ w u, scanBest gt patmatch bypattern pattern pool ⟨none, none⟩ =
        (⟨some w, some u⟩, 0) ∧
      (∀ p ∈ bestHits patmatch bypattern pattern pool, gt p.1 w = false) ∧
      (w, u) ∈ bestHits patmatch bypattern pattern pool := by
  rw [scanBest_eq_fold gt patmatch bypattern pattern pool ⟨none, none⟩ herr]
  cases hl : bestHits patmatch bypattern pattern pool with
  | nil => exact absurd hl hne
  | cons vx t =>
    obtain ⟨v, x⟩ := vx
    obtain ⟨w', u', hfold, hmax, hgtvw', hmem⟩ :=
      bestFold_invariant gt Hasym Htrans t v x
    refine ⟨w', u', ?_, ?_, ?_⟩
    · rw [List.foldl_cons]
      have hstep : bestStep gt ⟨none, none⟩ (v, x) = ⟨some v, some x⟩ := rfl
      rw [hstep, hfold]
    · intro p hp
      rcases List.mem_cons.mp hp with hp | hp
      · rw [hp]
        exact hgtvw'
      · exact hmax p hp
    · rcases hmem with ⟨hev, heu⟩ | ⟨hm, _⟩
      · rw [hev, heu]
        exact List.mem_cons_self _ _
      · exact List.mem_cons_of_mem _ hm

theorem scanFindExact_eq_find? (v : String) :
    ∀ pool : List RepoIndex, (∀ r ∈ pool, r.err = none) →
    scanFindExact none v pool =
      (pool.find? (fun r =>
        (r.packages.find? (fun d => d.pkgver == v)).isSome)).bind
        (fun r => (r.packages.find? (fun d => d.pkgver == v)).map
          (fun d => annotate d r.rpi_uri)) := by
  intro pool
  induction pool with
  | nil => intro _; rfl
  | cons r rs ih =>
    intro herr
    have hr : r.err = none := herr r (List.mem_cons_self r rs)
    have hrs : ∀ r' ∈ rs, r'.err = none :=
      fun r' h => herr r' (List.mem_cons_of_mem r h)
    simp only [scanFindExact, lookupExactOpt, hr, List.find?]
    cases hf : r.packages.find? (fun d => d.pkgver == v) with
    | some d => simp [hf]
    | none => simp only [hf, Option.isSome_none, Bool.false_eq_true]; exact ih hrs

theorem find?_congr_mem {α : Type} (p q : α → Bool) :
    ∀ l : List α, (∀ x ∈ l, p x = q x) → l.find? p = l.find? q := by
  intro l
  induction l with
  | nil => intro _; rfl
  | cons a t ih =>
    intro h
    have ha := h a (List.mem_cons_self a t)
    simp only [List.find?, ha]
    cases hq : q a with
    | true => rfl
    | false => exact ih (fun x hx => h x (List.mem_cons_of_mem a hx))

/-- C1: with best = true and an error-free, well-formed pool in which at
least one repository matches, the resolver returns a descriptor whose
pkgver is maximal among all per-repository hits under the comparator
(ties keeping the first repository seen), and whose repository
annotation is the URI of the repository from which that winning version
originated: the first repository in iteration order whose hit carries
the winning pkgver, because the winning pkgver is re-resolved through
the exact scan.  Well-formedness: pkgver is canonical identity (equal
pkgver implies equal pkgname across the pool) and within one repository
at most one descriptor matches the query. -/
theorem claim_C1 (gt patmatch : String → String → Bool)
    (pool : List RepoIndex) (pattern : String) (bypattern : Bool)
    (Hasym : ∀ a b, gt a b = true → gt b a = true → False)
    (Htrans : ∀ a b c, gt a b = true → gt b c = true → gt a c = true)
    (Htricho : ∀ a b, a = b ∨ gt a b = true ∨ gt b a = true)
    (herr : ∀ r ∈ pool, r.err = none)
    (Wname : ∀ r ∈ pool, ∀ d ∈ r.packages, ∀ r' ∈ pool, ∀ d' ∈ r'.packages,
      d.pkgver = d'.pkgver → d.pkgname = d'.pkgname)
    (Wuniq : ∀ r ∈ pool, ∀ d ∈ r.packages, ∀ d' ∈ r.packages,
      descMatches patmatch bypattern pattern d = true →
      descMatches patmatch bypattern pattern d' = true → d = d')
    (Hmatch : ∃ r ∈ pool, ∃ d ∈ r.packages,
      descMatches patmatch bypattern pattern d = true) :
    ∃ d r_o,
      xbps_repository_pool_find_pkg gt patmatch pool pattern bypattern
        true = (some d, 0) ∧
      pool.find? (fun r => (lookupPkgOpt patmatch bypattern pattern r).any
        (fun h => h.pkgver == d.pkgver)) = some r_o ∧
      d.repository = some r_o.rpi_uri ∧
      (∀ r ∈ pool, ∀ h,
        lookupPkgOpt patmatch bypattern pattern r = some h →
        h.pkgver = d.pkgver ∨ gt d.pkgver h.pkgver = true) := by
  obtain ⟨r₁, hr₁, d₁, hd₁, hm₁⟩ := Hmatch
  have hlo₁ : lookupPkgOpt patmatch bypattern pattern r₁ =
      r₁.packages.find? (descMatches patmatch bypattern pattern) := by
    unfold lookupPkgOpt
    rw [herr r₁ hr₁]
  obtain ⟨h₁, hh₁⟩ : ∃ h₁,
      lookupPkgOpt patmatch bypattern pattern r₁ = some h₁ := by
    rw [hlo₁]
    cases hcase : r₁.packages.find?
        (descMatches patmatch bypattern pattern) with
    | none => exact absurd hm₁ (List.find?_eq_none.mp hcase d₁ hd₁)
    | some h₁ => exact ⟨h₁, rfl⟩
  have hmemhits : (h₁.pkgver, r₁.rpi_uri) ∈
      bestHits patmatch bypattern pattern pool := by
    unfold bestHits
    refine List.mem_filterMap.mpr ⟨r₁, hr₁, ?_⟩
    rw [hh₁]
    rfl
  have hne : bestHits patmatch bypattern pattern pool ≠ [] := by
    intro h0
    rw [h0] at hmemhits
    cases hmemhits
  obtain ⟨w, u, hscan, hmax, hwmem⟩ :=
    scanBest_spec gt patmatch bypattern pattern pool Hasym Htrans herr hne
  obtain ⟨r₀, hr₀, hf₀⟩ := List.mem_filterMap.mp hwmem
  obtain ⟨h₀, hh₀, hpair⟩ := Option.map_eq_some'.mp hf₀
  have hh₀v : h₀.pkgver = w := congrArg Prod.fst hpair
  have hh₀find : r₀.packages.find?
      (descMatches patmatch bypattern pattern) = some h₀ := by
    have := hh₀
    unfold lookupPkgOpt at this
    rw [herr r₀ hr₀] at this
    exact this
  have hh₀mem : h₀ ∈ r₀.packages := List.mem_of_find?_eq_some hh₀find
  have hh₀match : descMatches patmatch bypattern pattern h₀ = true :=
    List.find?_some hh₀find
  have hpt : ∀ r ∈ pool,
      ((r.packages.find? (fun d => d.pkgver == w)).isSome) =
      ((lookupPkgOpt patmatch bypattern pattern r).any
        (fun d2 => d2.pkgver == w)) := by
    intro r hr
    have hlo : lookupPkgOpt patmatch bypattern pattern r =
        r.packages.find? (descMatches patmatch bypattern pattern) := by
      unfold lookupPkgOpt
      rw [herr r hr]
    cases hfa : r.packages.find? (fun d => d.pkgver == w) with
    | some dv =>
      have hdvmem := List.mem_of_find?_eq_some hfa
      have hdvv : dv.pkgver = w := by
        have := List.find?_some hfa
        simpa using this
      have hdvmatch : descMatches patmatch bypattern pattern dv = true := by
        by_cases hbp : bypattern = true
        · have h1 : patmatch pattern h₀.pkgver = true := by
            have := hh₀match
            unfold descMatches at this
            rw [hbp] at this
            simpa using this
          unfold descMatches
          rw [hbp]
          simp only [if_true]
          rw [hdvv, ← hh₀v]
          exact h1
        · have hname : dv.pkgname = h₀.pkgname :=
            Wname r hr dv hdvmem r₀ hr₀ h₀ hh₀mem (by rw [hdvv, hh₀v])
          have h1 : (h₀.pkgname == pattern) = true := by
            have := hh₀match
            unfold descMatches at this
            simp only [hbp] at this
            simpa [hbp] using this
          unfold descMatches
          simp only [hbp]
          simpa [hbp, hname] using h1
      obtain ⟨h', hh'⟩ : ∃ h', r.packages.find?
          (descMatches patmatch bypattern pattern) = some h' := by
        cases hcase : r.packages.find?
            (descMatches patmatch bypattern pattern) with
        | none => exact absurd hdvmatch (List.find?_eq_none.mp hcase dv hdvmem)
        | some h' => exact ⟨h', rfl⟩
      have hh'mem := List.mem_of_find?_eq_some hh'
      have hh'match := List.find?_some hh'
      have heq : h' = dv := Wuniq r hr h' hh'mem dv hdvmem hh'match hdvmatch
      rw [hlo, hh', heq]
      simp [hdvv]
    | none =>
      have hnone := List.find?_eq_none.mp hfa
      rw [hlo]
      cases hh' : r.packages.find?
          (descMatches patmatch bypattern pattern) with
      | none => simp
      | some h' =>
        have hmemh' := List.mem_of_find?_eq_some hh'
        have : ¬ (h'.pkgver == w) = true := hnone h' hmemh'
        simp only [Option.isSome_none, Option.any_some]
        cases hvv : (h'.pkgver == w) with
        | true => exact absurd hvv this
        | false => rfl
  have hfind_eq := find?_congr_mem
    (fun r => (r.packages.find? (fun d => d.pkgver == w)).isSome)
    (fun r => (lookupPkgOpt patmatch bypattern pattern r).any
      (fun d2 => d2.pkgver == w)) pool hpt
  have hpred₀ : ((lookupPkgOpt patmatch bypattern pattern r₀).any
      (fun d2 => d2.pkgver == w)) = true := by
    rw [hh₀]
    simp [hh₀v]
  obtain ⟨r_o, hro⟩ : ∃ r_o, pool.find?
      (fun r => (lookupPkgOpt patmatch bypattern pattern r).any
        (fun d2 => d2.pkgver == w)) = some r_o := by
    cases hcase : pool.find?
        (fun r => (lookupPkgOpt patmatch bypattern pattern r).any
          (fun d2 => d2.pkgver == w)) with
    | none => exact absurd hpred₀ (List.find?_eq_none.mp hcase r₀ hr₀)
    | some r_o => exact ⟨r_o, rfl⟩
  have hro_pred := List.find?_some hro
  have hro_mem : r_o ∈ pool := List.mem_of_find?_eq_some hro
  have hro_exact : (r_o.packages.find?
      (fun d => d.pkgver == w)).isSome = true := by
    rw [hpt r_o hro_mem]
    exact hro_pred
  obtain ⟨dstar, hdstar⟩ := Option.isSome_iff_exists.mp hro_exact
  have hdstar_v : dstar.pkgver = w := by
    have := List.find?_some hdstar
    simpa using this
  have hres : xbps_repository_pool_find_pkg gt patmatch pool pattern
      bypattern true = (some (annotate dstar r_o.rpi_uri), 0) := by
    show ((match (scanBest gt patmatch bypattern pattern pool
        ⟨none, none⟩).1.bestpkgver with
      | some v => scanFindExact none v pool
      | none => none),
      (scanBest gt patmatch bypattern pattern pool ⟨none, none⟩).2) = _
    rw [hscan]
    show (scanFindExact none w pool, 0) = _
    rw [scanFindExact_eq_find? w pool herr, hfind_eq, hro]
    simp [hdstar]
  refine ⟨annotate dstar r_o.rpi_uri, r_o, hres, ?_, rfl, ?_⟩
  · have hann : (annotate dstar r_o.rpi_uri).pkgver = w := hdstar_v
    simp only [hann]
    exact hro
  · intro r hr h hh
    have hmemh : (h.pkgver, r.rpi_uri) ∈
        bestHits patmatch bypattern pattern pool := by
      unfold bestHits
      refine List.mem_filterMap.mpr ⟨r, hr, ?_⟩
      rw [hh]
      rfl
    have hmaxh := hmax (h.pkgver, r.rpi_uri) hmemh
    have hann : (annotate dstar r_o.rpi_uri).pkgver = w := hdstar_v
    rw [hann]
    rcases Htricho h.pkgver w with heq | hgt | hlt
    · exact Or.inl heq
    · rw [hgt] at hmaxh
      cases hmaxh
    · exact Or.inr hlt

/-- Witness for C1 on a three-repository pool where the middle
repository holds the highest version. -/
theorem claim_C1_witness :
    ∃ d r_o,
      xbps_repository_pool_find_pkg sgt pm0 [repoA, repoB, repoC] "foo"
        false true = (some d, 0) ∧
      [repoA, repoB, repoC].find? (fun r =>
        (lookupPkgOpt pm0 false "foo" r).any
          (fun h => h.pkgver == d.pkgver)) = some r_o ∧
      d.repository = some r_o.rpi_uri ∧
      (∀ r ∈ [repoA, repoB, repoC], ∀ h,
        lookupPkgOpt pm0 false "foo" r = some h →
        h.pkgver = d.pkgver ∨ sgt d.pkgver h.pkgver = true) :=
  claim_C1 sgt pm0 [repoA, repoB, repoC] "foo" false sgt_asymm sgt_trans
    sgt_tricho (by decide) (by decide) (by decide) (by decide)

end XbpsSpec
